import Mathlib

/-!
Verification of the PRManger iterative impact-analysis engine.

Shallow embedding of the Python sources:
* `src/agents/splitter_agent.py` (dependency-aware PR partitioner),
* `src/agents/context_collector_agent.py` (evidence collection, AST block extraction),
* `src/agents/code_analyzer_agent.py` (iterative impact tracker control loop),
* `src/analyzers/project_analyzer/ast_parser.py` (structural index parser),
* `src/analyzers/project_analyzer/fast_file_searcher.py` (symbol search engine).

External effects (regexes, tree-sitter, ripgrep, the LLM oracle, the file
system) are modelled as explicit inputs; all control flow, data shaping and
caching logic is translated from the source.  Python `dict`s are modelled as
insertion-ordered association lists with update-in-place assignment, which is
the observable behaviour of CPython dicts.
-/

namespace PRM

/-- Python `d.get(k)` on an insertion-ordered dict: first matching key. -/
def lookupD {α : Type} (d : List (String × α)) (k : String) : Option α :=
  (d.find? (fun p => p.1 == k)).map Prod.snd

/-- Python `k in d`. -/
def hasKey {α : Type} (d : List (String × α)) (k : String) : Bool :=
  d.any (fun p => p.1 == k)

/-- Python `d[k] = v`: update the existing entry in place, else append. -/
def dictInsert {α : Type} (d : List (String × α)) (k : String) (v : α) :
    List (String × α) :=
  match d with
  | [] => [(k, v)]
  | p :: rest =>
    if p.1 = k then (k, v) :: rest else p :: dictInsert rest k v

/-- Python `s.split(c)` for a single-character separator (same semantics as
`String.splitOn`, defined over the character list so that it evaluates). -/
def splitOnChar (c : Char) (s : String) : List String :=
  go s.data []
where
  go : List Char → List Char → List String
    | [], acc => [String.mk acc.reverse]
    | ch :: rest, acc =>
      if ch = c then String.mk acc.reverse :: go rest []
      else go rest (ch :: acc)

namespace Splitter

/-- The regex heuristics of `_extract_changed_definitions_from_diff` and
`_has_reference_in_diff` (splitter_agent.py lines 345-402).  They are pure
functions of strings whose regex semantics is external to the embedding, so
they are supplied as parameters: `extractDefs diff` is the list of
`(name, defType)` pairs extracted from a per-file diff, and
`hasRef diff name defType` is the added-lines reference test. -/
structure DepHeuristics where
  extractDefs : String → List (String × String)
  hasRef : String → String → String → Bool

/-- Splitting configuration read from `CONFIG` in `_split_pr_by_modules`. -/
structure SplitConfig where
  targetDiffSize : Nat
  enableDependencyAnalysis : Bool

/-- One sub-PR dict as produced by the splitter.  `files` keeps only the
`"path"` values of the per-file dicts. -/
structure SubPR where
  title : String
  files : List String
  diff : String
  diffSize : Option Nat := none
  isDependencyGroup : Option Bool := none
  module : Option String := none
deriving Repr, DecidableEq

/-- `file_diffs.get(f, "")`: the per-file diff map with default. -/
def diffOf (fd : String → Option String) (f : String) : String :=
  (fd f).getD ""

/-- Follow the `parent` chain of the union-find of
`_analyze_and_group_dependencies` (lines 317-323).  The recursion is
fuel-bounded; with fuel `parent.length` it reaches the root of any acyclic
chain, and the chains produced by `ufUnion` are acyclic.  (The source's path
compression only speeds `find` up; it does not change its value.) -/
def ufFind (parent : List (String × String)) : Nat → String → String
  | 0, x => x
  | fuel + 1, x =>
    match lookupD parent x with
    | none => x
    | some p => if p = x then x else ufFind parent fuel p

/-- `find(x)`: the root of `x` in the parent map. -/
def findRoot (parent : List (String × String)) (x : String) : String :=
  ufFind parent parent.length x

/-- `union(x, y)` (lines 325-328): link the root of `x` under the root of
`y`. -/
def ufUnion (parent : List (String × String)) (x y : String) :
    List (String × String) :=
  let px := findRoot parent x
  let py := findRoot parent y
  if px = py then parent else dictInsert parent px py

/-- The union loop over the dependency dict (lines 330-332). -/
def applyUnions (deps : List (String × List String))
    (parent0 : List (String × String)) : List (String × String) :=
  deps.foldl (fun par p => p.2.foldl (fun q b => ufUnion q p.1 b) par) parent0

/-- Insert `x` into the group keyed by `root`, appending a fresh group at the
end when the key is new (the `groups_dict` loop, lines 334-339). -/
def insertGroup (root x : String) :
    List (String × List String) → List (String × List String)
  | [] => [(root, [x])]
  | (r, g) :: rest =>
    if r = root then (r, g ++ [x]) :: rest else (r, g) :: insertGroup root x rest

/-- `groups_dict`: group the file paths by their union-find root, keys in
first-occurrence order, members in `file_paths` order. -/
def groupByRoot (find : String → String) (filePaths : List String) :
    List (String × List String) :=
  filePaths.foldl (fun acc x => insertGroup (find x) x acc) []

/-- `file_definitions` (lines 289-294): files whose diff yields definitions. -/
def fileDefinitions (h : DepHeuristics) (fd : String → Option String)
    (filePaths : List String) : List (String × List (String × String)) :=
  filePaths.filterMap fun fp =>
    let defs := h.extractDefs (diffOf fd fp)
    if defs.isEmpty then none else some (fp, defs)

/-- The dependency dict (lines 300-315): for each file, the other files whose
changed definitions its diff references.  (Python stores `deps` in a `set`;
the union-find partition produced downstream does not depend on the
iteration order, so the `file_definitions` order is used here.) -/
def depLists (h : DepHeuristics) (fd : String → Option String)
    (filePaths : List String)
    (fdefs : List (String × List (String × String))) :
    List (String × List String) :=
  filePaths.filterMap fun fp =>
    let deps := fdefs.filterMap fun od =>
      if od.1 ≠ fp ∧ od.2.any (fun d => h.hasRef (diffOf fd fp) d.1 d.2)
      then some od.1 else none
    if deps.isEmpty then none else some (fp, deps)

/-- `_analyze_and_group_dependencies` (lines 283-342): groups of size > 1. -/
def analyzeAndGroupDependencies (h : DepHeuristics) (filePaths : List String)
    (fd : String → Option String) : List (List String) :=
  let fdefs := fileDefinitions h fd filePaths
  if fdefs.isEmpty then []
  else
    let parent0 := filePaths.map (fun f => (f, f))
    let parent := applyUnions (depLists h fd filePaths fdefs) parent0
    ((groupByRoot (findRoot parent) filePaths).map Prod.snd).filter
      (fun g => g.length > 1)

/-- `"\n".join([file_diffs.get(f, "") for f in group])`. -/
def joinDiffs (fd : String → Option String) (g : List String) : String :=
  String.intercalate "\n" (g.map (diffOf fd))

/-- Total utf-8 byte size of a group's per-file diffs. -/
def groupBytes (fd : String → Option String) (g : List String) : Nat :=
  (g.map (fun f => (diffOf fd f).utf8ByteSize)).sum

/-- Stable descending insertion for `file_sizes.sort(key=size, reverse=True)`:
an element goes after all strictly larger ones and before equal ones,
matching Python's stable sort. -/
def insertDesc (x : String × Nat) : List (String × Nat) → List (String × Nat)
  | [] => [x]
  | y :: ys => if y.2 > x.2 then y :: insertDesc x ys else x :: y :: ys

/-- Stable sort by diff byte size, descending. -/
def sortBySizeDesc : List (String × Nat) → List (String × Nat)
  | [] => []
  | x :: xs => insertDesc x (sortBySizeDesc xs)

/-- First-fit step of `_group_independent_files_by_size` (lines 510-519): put
the file into the first group that still has headroom under `target`. -/
def tryPlace (fd : String → Option String) (target : Nat) (f : String)
    (sz : Nat) : List (List String) → Option (List (List String))
  | [] => none
  | g :: gs =>
    if groupBytes fd g + sz ≤ target then some ((g ++ [f]) :: gs)
    else (tryPlace fd target f sz gs).map (g :: ·)

/-- `_group_independent_files_by_size` (lines 495-524): first-fit-decreasing
grouping of the independent files. -/
def groupIndependentFilesBySize (fd : String → Option String)
    (independentFiles : List String) (target : Nat) : List (List String) :=
  let fileSizes := independentFiles.map (fun f => (f, (diffOf fd f).utf8ByteSize))
  (sortBySizeDesc fileSizes).foldl
    (fun groups p =>
      match tryPlace fd target p.1 p.2 groups with
      | some gs => gs
      | none => groups ++ [[p.1]]) []

/-- Sub-PR built for one dependency group (lines 428-440). -/
def depGroupSubPR (fd : String → Option String) (i : Nat) (g : List String) :
    SubPR :=
  { title := "[子PR] 依赖组 " ++ toString i ++ " (" ++ toString g.length
      ++ "个相互依赖的文件)"
    files := g
    diff := joinDiffs fd g
    diffSize := some (joinDiffs fd g).utf8ByteSize
    isDependencyGroup := some true }

/-- Sub-PR built for one first-fit group of independent files (lines 469-485). -/
def indepGroupSubPR (fd : String → Option String) (i : Nat) (g : List String) :
    SubPR :=
  { title :=
      if g.length = 1 then "[子PR] 独立文件 " ++ toString i
      else "[子PR] 独立文件组 " ++ toString i ++ " (" ++ toString g.length
        ++ "个独立文件)"
    files := g
    diff := joinDiffs fd g
    diffSize := some (joinDiffs fd g).utf8ByteSize
    isDependencyGroup := some false }

/-- `_split_by_dependency_groups` (lines 405-492). -/
def splitByDependencyGroups (cfg : SplitConfig)
    (dependencyGroups : List (List String)) (fd : String → Option String) :
    List SubPR :=
  let depGroupsOnly := dependencyGroups.filter (fun g => g.length > 1)
  let independentFiles :=
    (dependencyGroups.filter (fun g => ¬ g.length > 1)).flatten
  let depPRs := depGroupsOnly.enum.map (fun p => depGroupSubPR fd (p.1 + 1) p.2)
  if independentFiles.isEmpty then depPRs
  else
    let totalIndependentSize :=
      (independentFiles.map (fun f => (diffOf fd f).utf8ByteSize)).sum
    if totalIndependentSize ≤ cfg.targetDiffSize then
      depPRs ++
        [{ title := "[子PR] 独立文件组 (" ++ toString independentFiles.length
             ++ "个独立文件)"
           files := independentFiles
           diff := joinDiffs fd independentFiles
           diffSize := some totalIndependentSize
           isDependencyGroup := some false }]
    else
      let grouped := groupIndependentFilesBySize fd independentFiles
        cfg.targetDiffSize
      depPRs ++ grouped.enum.map (fun p => indepGroupSubPR fd (p.1 + 1) p.2)

/-- `parts[0] if len(parts) > 1 else "根目录"` (lines 537-540). -/
def dirNameOf (f : String) : String :=
  let parts := splitOnChar '/' f
  if parts.length > 1 then parts.headD "根目录" else "根目录"

/-- Bump the count of a key in an insertion-ordered counter dict. -/
def bumpCount (k : String) : List (String × Nat) → List (String × Nat)
  | [] => [(k, 1)]
  | (r, n) :: rest =>
    if r = k then (r, n + 1) :: rest else (r, n) :: bumpCount k rest

/-- `dir_counts` for one dependency group, keys in first-occurrence order. -/
def dirCounts (g : List String) : List (String × Nat) :=
  g.foldl (fun acc f => bumpCount (dirNameOf f) acc) []

/-- `max(dir_counts, key=dir_counts.get)`: the first key of maximal count.
(Python raises on an empty dict; every group reaching this call is nonempty,
and the empty case is mapped to `""`.) -/
def mainDir (g : List String) : String :=
  match dirCounts g with
  | [] => ""
  | c :: cs => (cs.foldl (fun best p => if p.2 > best.2 then p else best) c).1

/-- One `dir_groups[main_dir]` record. -/
structure DirGroup where
  files : List String
  diff : String
deriving Repr, DecidableEq

/-- Apply an update to the entry of key `k` (it is present at call sites). -/
def updateAt (k : String) (f : DirGroup → DirGroup) :
    List (String × DirGroup) → List (String × DirGroup)
  | [] => []
  | (r, dg) :: rest =>
    if r = k then (r, f dg) :: rest else (r, dg) :: updateAt k f rest

/-- Add one dependency group to `dir_groups` (lines 534-555): create the main
directory's entry if missing, then append every file of the group to it,
concatenating the diff of each file that has one. -/
def addToDirGroups (fd : String → Option String)
    (dgs : List (String × DirGroup)) (dep : List String) :
    List (String × DirGroup) :=
  let md := mainDir dep
  let dgs' := if hasKey dgs md then dgs else dgs ++ [(md, ⟨[], ""⟩)]
  dep.foldl
    (fun acc f =>
      updateAt md
        (fun dg =>
          { files := dg.files ++ [f]
            diff := dg.diff ++ (match fd f with
              | some d => d ++ "\n"
              | none => "") }) acc) dgs'

/-- `_group_dependency_aware_by_directory` (lines 527-560).  `targetSize` is
accepted but unused, as in the source. -/
def groupDependencyAwareByDirectory (dependencyGroups : List (List String))
    (fd : String → Option String) (targetSize : Nat) :
    List (String × DirGroup) :=
  let dirGroups := dependencyGroups.foldl (addToDirGroups fd) []
  let filtered := dirGroups.filter (fun p => p.2.files.length ≥ 2)
  if filtered.length > 1 then filtered else dirGroups

/-- Sub-PR built for one fixed-size chunk in strategy 3 (lines 249-254). -/
def chunkSubPR (fd : String → Option String) (i : Nat) (g : List String) :
    SubPR :=
  { title := "[子PR] 文件组 " ++ toString i
    files := g
    diff := String.intercalate "\n" (g.map (diffOf fd))
    module := some ("group_" ++ toString i) }

/-- The `range(0, len(file_paths), 5)` chunking of strategy 3 (lines 245-255). -/
def chunk5 : List String → List (List String)
  | [] => []
  | a :: b :: c :: d :: e :: rest => [a, b, c, d, e] :: chunk5 rest
  | l => [l]

/-- Step 0 of `_split_pr_by_modules` (lines 185-216): the final
`dependency_groups` list, made of the size->1 groups followed by a singleton
group per independent file. -/
def dependencyGroupsOf (cfg : SplitConfig) (h : DepHeuristics)
    (filePaths : List String) (fd : String → Option String) :
    List (List String) :=
  if cfg.enableDependencyAnalysis then
    let dg := analyzeAndGroupDependencies h filePaths fd
    if dg.isEmpty then filePaths.map (fun f => [f])
    else
      let filesInGroups := dg.flatten
      let independent := filePaths.filter (fun f => decide (f ∉ filesInGroups))
      dg ++ independent.map (fun f => [f])
  else filePaths.map (fun f => [f])

/-- `_split_pr_by_modules` (lines 157-258), starting from the extracted
`file_paths` list and `file_diffs` map. -/
def splitPrByModules (cfg : SplitConfig) (h : DepHeuristics)
    (filePaths : List String) (fd : String → Option String) : List SubPR :=
  let dependencyGroups := dependencyGroupsOf cfg h filePaths fd
  if dependencyGroups.length > 1 then
    splitByDependencyGroups cfg dependencyGroups fd
  else
    let moduleGroups :=
      groupDependencyAwareByDirectory dependencyGroups fd cfg.targetDiffSize
    if moduleGroups.length > 1 then
      moduleGroups.map (fun p =>
        { title := "[子PR] " ++ p.1
          files := p.2.files
          diff := p.2.diff
          module := some p.1 })
    else
      (chunk5 filePaths).enum.map (fun p => chunkSubPR fd (p.1 + 1) p.2)

/-! Lemmas about the partition behaviour of the splitter. -/

open List

theorem insertGroup_flatten_perm (root x : String)
    (acc : List (String × List String)) :
    ((insertGroup root x acc).map Prod.snd).flatten ~
      ((acc.map Prod.snd).flatten) ++ [x] := by
  induction acc with
  | nil => simp [insertGroup]
  | cons p rest ih =>
    obtain ⟨r, g⟩ := p
    by_cases hr : r = root
    · simp only [insertGroup, if_pos hr, List.map_cons, List.flatten_cons]
      simp only [List.append_assoc]
      exact List.Perm.append_left g List.perm_append_comm
    · simp only [insertGroup, if_neg hr, List.map_cons, List.flatten_cons]
      simp only [List.append_assoc]
      exact List.Perm.append_left g ih

theorem groupByRoot_foldl_perm (find : String → String) :
    ∀ (l : List String) (acc : List (String × List String)),
      ((l.foldl (fun a x => insertGroup (find x) x a) acc).map
        Prod.snd).flatten ~ ((acc.map Prod.snd).flatten) ++ l := by
  intro l
  induction l with
  | nil => intro acc; simp
  | cons x xs ih =>
    intro acc
    simp only [List.foldl_cons]
    refine (ih (insertGroup (find x) x acc)).trans ?_
    refine (List.Perm.append_right xs (insertGroup_flatten_perm (find x) x acc)).trans ?_
    simp [List.append_assoc]

theorem groupByRoot_flatten_perm (find : String → String)
    (filePaths : List String) :
    ((groupByRoot find filePaths).map Prod.snd).flatten ~ filePaths := by
  simpa [groupByRoot] using groupByRoot_foldl_perm find filePaths []

theorem flatten_filter_perm {α : Type} (p : List α → Bool)
    (l : List (List α)) :
    ((l.filter p).flatten ++ (l.filter (fun g => !(p g))).flatten) ~
      l.flatten := by
  induction l with
  | nil => simp
  | cons g rest ih =>
    by_cases hp : p g
    · simp only [List.filter_cons, hp, Bool.not_true, if_true, if_false,
        List.flatten_cons]
      simp only [List.append_assoc]
      exact List.Perm.append_left g ih
    · have hp' : p g = false := by simpa using hp
      simp only [List.filter_cons, hp', Bool.not_false, if_true, if_false,
        List.flatten_cons]
      refine List.perm_append_comm.trans ?_
      simp only [List.append_assoc]
      refine (List.Perm.append_left g List.perm_append_comm).trans ?_
      exact List.Perm.append_left g ih

theorem flatten_map_singleton {α : Type} (l : List α) :
    (l.map (fun a => [a])).flatten = l := by
  induction l with
  | nil => rfl
  | cons a rest ih => simp [ih]

theorem insertDesc_perm (x : String × Nat) (l : List (String × Nat)) :
    insertDesc x l ~ x :: l := by
  induction l with
  | nil => simp [insertDesc]
  | cons y ys ih =>
    by_cases hy : y.2 > x.2
    · simp only [insertDesc, if_pos hy]
      exact (List.Perm.cons y ih).trans (List.Perm.swap x y ys)
    · simp [insertDesc, if_neg hy]

theorem sortBySizeDesc_perm (l : List (String × Nat)) :
    sortBySizeDesc l ~ l := by
  induction l with
  | nil => simp [sortBySizeDesc]
  | cons x xs ih =>
    exact (insertDesc_perm x (sortBySizeDesc xs)).trans (List.Perm.cons x ih)

theorem tryPlace_flatten_perm (fd : String → Option String) (target : Nat)
    (f : String) (sz : Nat) :
    ∀ (gs gs' : List (List String)), tryPlace fd target f sz gs = some gs' →
      gs'.flatten ~ gs.flatten ++ [f] := by
  intro gs
  induction gs with
  | nil => intro gs' h; simp [tryPlace] at h
  | cons g rest ih =>
    intro gs' h
    by_cases hfit : groupBytes fd g + sz ≤ target
    · simp only [tryPlace, if_pos hfit, Option.some.injEq] at h
      subst h
      simp only [List.flatten_cons, List.append_assoc]
      exact List.Perm.append_left g List.perm_append_comm
    · simp only [tryPlace, if_neg hfit, Option.map_eq_some'] at h
      obtain ⟨rest', hrest, hcons⟩ := h
      subst hcons
      simp only [List.flatten_cons, List.append_assoc]
      exact List.Perm.append_left g (ih rest' hrest)

theorem ffd_foldl_flatten_perm (fd : String → Option String) (target : Nat) :
    ∀ (l : List (String × Nat)) (gs : List (List String)),
      ((l.foldl (fun groups p =>
          match tryPlace fd target p.1 p.2 groups with
          | some gs' => gs'
          | none => groups ++ [[p.1]]) gs).flatten) ~
        gs.flatten ++ l.map Prod.fst := by
  intro l
  induction l with
  | nil => intro gs; simp
  | cons p ps ih =>
    intro gs
    simp only [List.foldl_cons, List.map_cons]
    cases htp : tryPlace fd target p.1 p.2 gs with
    | some gs' =>
      simp only [htp]
      refine (ih gs').trans ?_
      refine (List.Perm.append_right _ (tryPlace_flatten_perm fd target p.1 p.2 gs gs' htp)).trans ?_
      simp [List.append_assoc]
    | none =>
      simp only [htp]
      refine (ih _).trans ?_
      simp [List.append_assoc]

theorem groupIndependentFilesBySize_flatten_perm (fd : String → Option String)
    (files : List String) (target : Nat) :
    (groupIndependentFilesBySize fd files target).flatten ~ files := by
  unfold groupIndependentFilesBySize
  refine (ffd_foldl_flatten_perm fd target _ []).trans ?_
  simp only [List.flatten_nil, List.nil_append]
  refine (List.Perm.map Prod.fst (sortBySizeDesc_perm _)).trans ?_
  rw [List.map_map,
    show (Prod.fst ∘ fun f => (f, (diffOf fd f).utf8ByteSize)) = id from rfl]
  simp

theorem map_files_enumFrom (mk : Nat → List String → SubPR)
    (hmk : ∀ i g, (mk i g).files = g) :
    ∀ (l : List (List String)) (n : Nat),
      (((List.enumFrom n l).map (fun p => mk p.1 p.2)).map SubPR.files) = l := by
  intro l
  induction l with
  | nil => intro n; rfl
  | cons g rest ih =>
    intro n
    simp [List.enumFrom, hmk, ih (n + 1)]

theorem filter_split_perm (dgs : List (List String)) :
    ((dgs.filter fun g => decide (g.length > 1)).flatten ++
      (dgs.filter fun g => decide (¬ g.length > 1)).flatten) ~ dgs.flatten := by
  have h := flatten_filter_perm (fun g : List String => decide (g.length > 1)) dgs
  have hnotp : (fun g : List String => !(decide (g.length > 1)))
      = fun g : List String => decide (¬ g.length > 1) := by
    funext g; simp only [decide_not]
  rwa [hnotp] at h

theorem splitByDependencyGroups_flatten_perm (cfg : SplitConfig)
    (dgs : List (List String)) (fd : String → Option String) :
    ((splitByDependencyGroups cfg dgs fd).map SubPR.files).flatten ~
      dgs.flatten := by
  have hsplit := filter_split_perm dgs
  have hdep : (((dgs.filter fun g => decide (g.length > 1)).enum.map
      (fun p => depGroupSubPR fd (p.1 + 1) p.2)).map SubPR.files)
      = dgs.filter fun g => decide (g.length > 1) := by
    simpa [List.enum] using map_files_enumFrom
      (fun i g => depGroupSubPR fd (i + 1) g) (fun _ _ => rfl)
      (dgs.filter fun g => decide (g.length > 1)) 0
  simp only [splitByDependencyGroups]
  by_cases hie : ((dgs.filter fun g => decide (¬ g.length > 1)).flatten).isEmpty
  · have hnil : (dgs.filter fun g => decide (¬ g.length > 1)).flatten = [] := by
      simpa using hie
    simp only [hie, if_true, hdep]
    refine List.Perm.trans ?_ hsplit
    rw [hnil]
    simp
  · simp only [hie, if_false]
    by_cases hsz : ((dgs.filter fun g => decide (¬ g.length > 1)).flatten.map
        (fun f => (diffOf fd f).utf8ByteSize)).sum ≤ cfg.targetDiffSize
    · rw [if_pos hsz]
      simp only [List.map_append, List.flatten_append, hdep]
      simpa using hsplit
    · rw [if_neg hsz]
      simp only [List.map_append, List.flatten_append, hdep]
      have hmap : (((groupIndependentFilesBySize fd
            ((dgs.filter fun g => decide (¬ g.length > 1)).flatten)
            cfg.targetDiffSize).enum.map
          (fun p => indepGroupSubPR fd (p.1 + 1) p.2)).map SubPR.files)
          = groupIndependentFilesBySize fd
            ((dgs.filter fun g => decide (¬ g.length > 1)).flatten)
            cfg.targetDiffSize := by
        simpa [List.enum] using map_files_enumFrom
          (fun i g => indepGroupSubPR fd (i + 1) g) (fun _ _ => rfl)
          (groupIndependentFilesBySize fd
            ((dgs.filter fun g => decide (¬ g.length > 1)).flatten)
            cfg.targetDiffSize) 0
      rw [hmap]
      exact (List.Perm.append_left _
        (groupIndependentFilesBySize_flatten_perm fd _ _)).trans hsplit

theorem analyzeAndGroupDependencies_shape (h : DepHeuristics)
    (filePaths : List String) (fd : String → Option String) :
    analyzeAndGroupDependencies h filePaths fd = [] ∨
      ∃ find : String → String,
        analyzeAndGroupDependencies h filePaths fd =
          ((groupByRoot find filePaths).map Prod.snd).filter
            (fun g => decide (g.length > 1)) := by
  unfold analyzeAndGroupDependencies
  by_cases hfd : (fileDefinitions h fd filePaths).isEmpty
  · left; simp [hfd]
  · right
    refine ⟨findRoot (applyUnions
      (depLists h fd filePaths (fileDefinitions h fd filePaths))
      (filePaths.map (fun f => (f, f)))), ?_⟩
    simp [hfd]

theorem dependencyGroupsOf_flatten_perm (cfg : SplitConfig)
    (h : DepHeuristics) (filePaths : List String)
    (fd : String → Option String) (hnd : filePaths.Nodup) :
    (dependencyGroupsOf cfg h filePaths fd).flatten ~ filePaths := by
  unfold dependencyGroupsOf
  by_cases hen : cfg.enableDependencyAnalysis
  · simp only [hen, if_true]
    by_cases hdg : (analyzeAndGroupDependencies h filePaths fd).isEmpty
    · simp [hdg, flatten_map_singleton]
    · simp only [hdg, Bool.false_eq_true, if_false]
      rcases analyzeAndGroupDependencies_shape h filePaths fd with hnil | ⟨find, hform⟩
      · rw [hnil] at hdg; simp at hdg
      · set dg := analyzeAndGroupDependencies h filePaths fd with hdgdef
        set A := dg.flatten with hA
        set B := (((groupByRoot find filePaths).map Prod.snd).filter
          (fun g => decide (¬ g.length > 1))).flatten with hB
        have hAB : A ++ B ~ filePaths := by
          rw [hA, hform]
          exact (filter_split_perm _).trans (groupByRoot_flatten_perm find filePaths)
        have hnodupAB : (A ++ B).Nodup := (hAB.nodup_iff).mpr hnd
        have hdisj : List.Disjoint A B := List.disjoint_of_nodup_append hnodupAB
        have hfA : A.filter (fun f => decide (f ∉ A)) = [] := by
          rw [List.filter_eq_nil_iff]
          intro a ha
          simp [ha]
        have hfB : B.filter (fun f => decide (f ∉ A)) = B := by
          rw [List.filter_eq_self]
          intro b hb
          simpa using fun hbA => hdisj hbA hb
        have hindep : filePaths.filter (fun f => decide (f ∉ A)) ~ B := by
          refine ((hAB.symm).filter _).trans ?_
          rw [List.filter_append, hfA, hfB]
          simp
        simp only [List.flatten_append, flatten_map_singleton]
        exact (List.Perm.append_left A hindep).trans hAB
  · simp [hen, flatten_map_singleton]

theorem updateAt_length (k : String) (f : DirGroup → DirGroup) :
    ∀ l : List (String × DirGroup), (updateAt k f l).length = l.length := by
  intro l
  induction l with
  | nil => rfl
  | cons p rest ih =>
    obtain ⟨r, dg⟩ := p
    by_cases hr : r = k
    · simp [updateAt, hr, ih]
    · simp [updateAt, hr, ih]

theorem foldl_length_const {β : Type}
    (step : List (String × DirGroup) → β → List (String × DirGroup))
    (hstep : ∀ acc b, (step acc b).length = acc.length) :
    ∀ (l : List β) (acc : List (String × DirGroup)),
      (l.foldl step acc).length = acc.length := by
  intro l
  induction l with
  | nil => intro acc; rfl
  | cons x xs ih => intro acc; rw [List.foldl_cons, ih, hstep]

theorem addToDirGroups_nil_length (fd : String → Option String)
    (dep : List String) : (addToDirGroups fd [] dep).length = 1 := by
  unfold addToDirGroups
  have hk : hasKey ([] : List (String × DirGroup)) (mainDir dep) = false := rfl
  simp only [hk, Bool.false_eq_true, if_false, List.nil_append]
  rw [foldl_length_const _ (fun acc f => updateAt_length _ _ acc)]
  rfl

theorem groupDir_length_le_one (dgs : List (List String))
    (fd : String → Option String) (t : Nat) (hlen : dgs.length ≤ 1) :
    (groupDependencyAwareByDirectory dgs fd t).length ≤ 1 := by
  match dgs, hlen with
  | [], _ =>
    simp [groupDependencyAwareByDirectory]
  | [g], _ =>
    unfold groupDependencyAwareByDirectory
    have h1 : (List.foldl (addToDirGroups fd) [] [g]).length = 1 := by
      simpa using addToDirGroups_nil_length fd g
    have hfil : ((List.foldl (addToDirGroups fd) [] [g]).filter
        (fun p => decide (p.2.files.length ≥ 2))).length ≤ 1 := by
      calc ((List.foldl (addToDirGroups fd) [] [g]).filter
            (fun p => decide (p.2.files.length ≥ 2))).length
          ≤ (List.foldl (addToDirGroups fd) [] [g]).length :=
            List.length_filter_le _ _
        _ = 1 := h1
    rw [if_neg (by omega)]
    omega

theorem chunk5_flatten : ∀ l : List String, (chunk5 l).flatten = l
  | [] => by rfl
  | [a] => by rfl
  | [a, b] => by rfl
  | [a, b, c] => by rfl
  | [a, b, c, d] => by rfl
  | a :: b :: c :: d :: e :: rest => by
    have ih := chunk5_flatten rest
    show ([a, b, c, d, e] :: chunk5 rest).flatten = a :: b :: c :: d :: e :: rest
    simp [ih]

/-- C1: for every changed-file set (a list without duplicates) and per-file
diff map, `_split_pr_by_modules` returns sub-PRs whose file lists, joined,
are a permutation of the input set — every changed file appears in exactly
one unit, no file omitted and none duplicated — on every strategy path
(dependency-group split, directory grouping, fixed-size chunking). -/
theorem c1_partition_exactly_once (cfg : SplitConfig) (h : DepHeuristics)
    (filePaths : List String) (fd : String → Option String)
    (hnd : filePaths.Nodup) :
    ((splitPrByModules cfg h filePaths fd).map SubPR.files).flatten ~
      filePaths := by
  simp only [splitPrByModules]
  by_cases hg : (dependencyGroupsOf cfg h filePaths fd).length > 1
  · rw [if_pos hg]
    exact (splitByDependencyGroups_flatten_perm cfg _ fd).trans
      (dependencyGroupsOf_flatten_perm cfg h filePaths fd hnd)
  · rw [if_neg hg]
    have hmg := groupDir_length_le_one (dependencyGroupsOf cfg h filePaths fd)
      fd cfg.targetDiffSize (by omega)
    rw [if_neg (by omega)]
    have hchunk : (((chunk5 filePaths).enum.map
        (fun p => chunkSubPR fd (p.1 + 1) p.2)).map SubPR.files)
        = chunk5 filePaths := by
      simpa [List.enum] using map_files_enumFrom
        (fun i g => chunkSubPR fd (i + 1) g) (fun _ _ => rfl)
        (chunk5 filePaths) 0
    rw [hchunk, chunk5_flatten]

/-- Witness for `c1_partition_exactly_once` at a concrete two-file input. -/
theorem c1_partition_exactly_once_witness :
    (["a.py", "b.py"] : List String).Nodup ∧
      ((splitPrByModules ⟨10, true⟩
          ⟨fun _ => [("sym", "function")], fun _ _ _ => true⟩
          ["a.py", "b.py"] (fun _ => some "+x")).map SubPR.files).flatten ~
        ["a.py", "b.py"] :=
  ⟨by decide, c1_partition_exactly_once _ _ _ _ (by decide)⟩

/-- Heuristics under which every file's diff declares a definition and every
file references every other file's definitions: all changed files fall into a
single dependency group. -/
def depHeurAll : DepHeuristics :=
  ⟨fun _ => [("sym", "function")], fun _ _ _ => true⟩

/-- Default splitting configuration (`target_diff_size` 50000, dependency
analysis enabled). -/
def cfgDefault : SplitConfig := ⟨50000, true⟩

/-- Six changed files that all reference one another under `depHeurAll`. -/
def sixFiles : List String := ["a", "b", "c", "d", "e", "f"]

/-- A per-file diff map giving every file a one-line diff. -/
def diffPlusX : String → Option String := fun _ => some "+x"

/-- C2: on six mutually referencing changed files the dependency analysis
produces a single dependency group holding all six files, but
`_split_pr_by_modules` falls through to the fixed-size chunking fallback
(five files per chunk) and splits that group across two sub-PRs, so no unit
contains the group — contradicting the function's own stated strategy of
keeping dependency groups intact. -/
theorem c2_chunking_splits_dependency_group :
    analyzeAndGroupDependencies depHeurAll sixFiles diffPlusX = [sixFiles]
    ∧ (splitPrByModules cfgDefault depHeurAll sixFiles diffPlusX).map
        SubPR.files = [["a", "b", "c", "d", "e"], ["f"]]
    ∧ ∀ u ∈ splitPrByModules cfgDefault depHeurAll sixFiles diffPlusX,
        ¬ sixFiles ⊆ u.files :=
  ⟨by decide, by decide, by decide⟩

end Splitter

/-- One search item as read from the oracle's `search_items` entries
(`item.get("name", "")`, `item.get("type", "unknown")`, `item.get("reason", "")`).
An absent name is the empty string. -/
structure SearchItem where
  name : String
  type : String := "unknown"
  reason : String := ""
deriving Repr, DecidableEq

namespace Analyzer

/-- The analysis-conclusion dict fields that `code_analyzer_node` reads or
writes.  `iterationInfo` models the `iteration_info` entry
`(total_iterations, impact_chain_depth)` attached before returning. -/
structure AnalysisConclusion where
  hasCriticalIssues : Bool
  criticalIssues : List String
  potentialRisks : List String
  summary : String
  iterationInfo : Option (Nat × Nat) := none
deriving Repr, DecidableEq

/-- The outcome of one oracle (LLM) round-trip as seen by
`code_analyzer_node`: `parseFailure` is `parse_json_with_retry` returning
`None`; the other constructors are the validated `action` variants. -/
inductive OracleResponse where
  | parseFailure
  | conclusion (c : AnalysisConclusion)
  | requestContext (items : List SearchItem) (note : String)
  | unknownAction (a : String)
deriving Repr, DecidableEq

/-- One `impact_chain` entry (lines 375-379). -/
structure ChainEntry where
  iteration : Nat
  searchItems : List SearchItem
  analysisNote : String
deriving Repr, DecidableEq

/-- The per-tier iteration ceiling of `size_config` (lines 64-96):
small/medium use the configured maximum, large subtracts 2 (floor 2), xlarge
subtracts 4 (floor 2); unknown sizes fall back to the medium tier. -/
def tierMaxIterations (configMax : Nat) (prSize : String) : Nat :=
  if prSize = "small" then configMax
  else if prSize = "medium" then configMax
  else if prSize = "large" then if configMax > 2 then configMax - 2 else 2
  else if prSize = "xlarge" then if configMax > 4 then configMax - 4 else 2
  else configMax

/-- The synthesized conclusion returned when the iteration ceiling is
reached (lines 99-114). -/
def depthLimitConclusion (maxIter count chainLen : Nat) : AnalysisConclusion :=
  { hasCriticalIssues := false
    criticalIssues := []
    potentialRisks :=
      ["达到最大迭代深度(" ++ toString maxIter ++ ")，可能存在未发现的深层影响"]
    summary := "完成 " ++ toString count ++ " 轮迭代分析"
    iterationInfo := some (count, chainLen) }

/-- The conclusion returned on an unparsable oracle response (lines 297-308). -/
def parseFailConclusion (count : Nat) : AnalysisConclusion :=
  { hasCriticalIssues := false
    criticalIssues := []
    potentialRisks := ["LLM响应解析失败"]
    summary := "第" ++ toString (count + 1) ++ "轮迭代解析失败" }

/-- The conclusion returned when the request carries no search items
(lines 339-351). -/
def emptyItemsConclusion (count : Nat) : AnalysisConclusion :=
  { hasCriticalIssues := false
    criticalIssues := []
    potentialRisks := ["未指定需要搜索的项"]
    summary := "完成" ++ toString (count + 1) ++ "轮迭代" }

/-- The conclusion returned when every requested item lacks a name
(lines 356-367). -/
def noNamesConclusion (count : Nat) : AnalysisConclusion :=
  { hasCriticalIssues := false
    criticalIssues := []
    potentialRisks := ["搜索项格式错误"]
    summary := "完成" ++ toString (count + 1) ++ "轮迭代" }

/-- The conclusion returned on an unknown `action` (lines 392-403). -/
def unknownActionConclusion (a : String) (count : Nat) : AnalysisConclusion :=
  let _ := count
  { hasCriticalIssues := false
    criticalIssues := []
    potentialRisks := ["未知action: " ++ a]
    summary := "分析异常" }

/-- The observable outcome of one `code_analyzer_node` call: either the
session completes (`current_stage = "analysis_complete"`) with a conclusion
and the new iteration count, or a context request is issued
(`current_stage = "context_collection"`) with the new count and chain. -/
inductive StepResult where
  | complete (c : AnalysisConclusion) (newCount : Nat)
  | requestCtx (items : List SearchItem) (note : String) (newCount : Nat)
      (newChain : List ChainEntry)
deriving Repr, DecidableEq

/-- One `code_analyzer_node` round (lines 98-114 and 296-403): ceiling guard
first, then dispatch on the oracle response. -/
def analyzerStep (maxIter count : Nat) (chain : List ChainEntry)
    (resp : OracleResponse) : StepResult :=
  if count ≥ maxIter then
    .complete (depthLimitConclusion maxIter count chain.length) count
  else
    match resp with
    | .parseFailure => .complete (parseFailConclusion count) (count + 1)
    | .conclusion c =>
      .complete { c with iterationInfo := some (count + 1, chain.length) }
        (count + 1)
    | .requestContext items note =>
      if items.isEmpty then .complete (emptyItemsConclusion count) (count + 1)
      else if ((items.filter (fun it => it.name ≠ "")).map
          SearchItem.name).isEmpty then
        .complete (noNamesConclusion count) (count + 1)
      else
        .requestCtx items note (count + 1)
          (chain ++ [⟨count + 1, items, note⟩])
    | .unknownAction a => .complete (unknownActionConclusion a count) (count + 1)

/-- The analyzer ⇄ collector loop of one session, driven by the stream of
oracle responses (`oracle idx` is the response to the `idx`-th LLM call).
`seed` models the first-round AST seeding `_extract_ast_context`, applied to
the cache exactly when `iteration_count = 0`.  Returns the final conclusion,
the number of fulfilled context requests, and the final cache. -/
def runLoop {κ : Type} (maxIter : Nat) (oracle : Nat → OracleResponse)
    (seed : κ → κ) (count : Nat) (chain : List ChainEntry) (cache : κ)
    (idx : Nat) : AnalysisConclusion × Nat × κ :=
  let cache1 := if count = 0 then seed cache else cache
  if hlt : count < maxIter then
    match oracle idx with
    | .parseFailure => (parseFailConclusion count, 0, cache1)
    | .conclusion c =>
      ({ c with iterationInfo := some (count + 1, chain.length) }, 0, cache1)
    | .requestContext items note =>
      if items.isEmpty then (emptyItemsConclusion count, 0, cache1)
      else if ((items.filter (fun it => it.name ≠ "")).map
          SearchItem.name).isEmpty then
        (noNamesConclusion count, 0, cache1)
      else
        let r := runLoop maxIter oracle seed (count + 1)
          (chain ++ [⟨count + 1, items, note⟩]) cache1 (idx + 1)
        (r.1, r.2.1 + 1, r.2.2)
    | .unknownAction a => (unknownActionConclusion a count, 0, cache1)
  else (depthLimitConclusion maxIter count chain.length, 0, cache1)
termination_by maxIter - count
decreasing_by omega

/-- The depth-limit risk note. -/
def depthNote (maxIter : Nat) : String :=
  "达到最大迭代深度(" ++ toString maxIter ++ ")，可能存在未发现的深层影响"

theorem runLoop_spec {κ : Type} (maxIter : Nat) (oracle : Nat → OracleResponse)
    (seed : κ → κ) :
    ∀ (n count : Nat), maxIter - count ≤ n → ∀ (chain : List ChainEntry)
      (cache : κ) (idx : Nat),
      ((runLoop maxIter oracle seed count chain cache idx).2.1 ≤
        maxIter - count)
      ∧ ((runLoop maxIter oracle seed count chain cache idx).2.1 =
          maxIter - count →
        (runLoop maxIter oracle seed count chain cache idx).1.hasCriticalIssues
            = false
        ∧ (runLoop maxIter oracle seed count chain cache idx).1.potentialRisks
            = [depthNote maxIter]) := by
  intro n
  induction n with
  | zero =>
    intro count hle chain cache idx
    have hge : ¬ count < maxIter := by omega
    rw [runLoop]
    simp only [dif_neg hge]
    refine ⟨by omega, fun _ => ⟨rfl, rfl⟩⟩
  | succ n ih =>
    intro count hle chain cache idx
    by_cases hlt : count < maxIter
    · rw [runLoop]
      simp only [dif_pos hlt]
      split
      · try dsimp only
        refine ⟨by omega, fun heq => by omega⟩
      · try dsimp only
        refine ⟨by omega, fun heq => by omega⟩
      · rename_i items note heq
        by_cases hie : items.isEmpty
        · simp only [hie, if_true]
          try dsimp only
          refine ⟨by omega, fun heq => by omega⟩
        · simp only [hie, Bool.false_eq_true, if_false]
          by_cases hsn : ((items.filter (fun it => it.name ≠ "")).map
              SearchItem.name).isEmpty
          · simp only [hsn, if_true]
            try dsimp only
            refine ⟨by omega, fun heq => by omega⟩
          · simp only [hsn, Bool.false_eq_true, if_false]
            try dsimp only
            have hrec := ih (count + 1) (by omega)
              (chain ++ [⟨count + 1, items, note⟩])
              (if count = 0 then seed cache else cache) (idx + 1)
            refine ⟨by omega, fun heq => ?_⟩
            have heq' : (runLoop maxIter oracle seed (count + 1)
                (chain ++ [⟨count + 1, items, note⟩])
                (if count = 0 then seed cache else cache) (idx + 1)).2.1 =
                maxIter - (count + 1) := by omega
            exact hrec.2 heq'
      · try dsimp only
        refine ⟨by omega, fun heq => by omega⟩
    · have hge : ¬ count < maxIter := hlt
      rw [runLoop]
      simp only [dif_neg hge]
      refine ⟨by omega, fun _ => ⟨rfl, rfl⟩⟩

/-- C4: for every size tier, the impact-tracker loop fulfils at most
`ceiling - startCount` context requests before completing; whenever the run
uses up the full budget (the ceiling is reached before an oracle conclusion)
the returned conclusion is the synthesized one with
`has_critical_issues = false` and the depth-limit note as its only potential
risk; and with ceiling 0 the loop returns that synthesized conclusion right
after the first-round AST seeding, fulfilling no oracle context request. -/
theorem c4_iteration_ceiling_bounds {κ : Type} (configMax : Nat)
    (prSize : String) (oracle : Nat → OracleResponse) (seed : κ → κ)
    (count : Nat) (chain : List ChainEntry) (cache : κ) (idx : Nat) :
    ((runLoop (tierMaxIterations configMax prSize) oracle seed count chain
        cache idx).2.1 ≤ tierMaxIterations configMax prSize - count)
    ∧ ((runLoop (tierMaxIterations configMax prSize) oracle seed count chain
          cache idx).2.1 = tierMaxIterations configMax prSize - count →
      (runLoop (tierMaxIterations configMax prSize) oracle seed count chain
          cache idx).1.hasCriticalIssues = false
      ∧ (runLoop (tierMaxIterations configMax prSize) oracle seed count chain
          cache idx).1.potentialRisks =
          [depthNote (tierMaxIterations configMax prSize)])
    ∧ (tierMaxIterations configMax prSize = 0 → count = 0 →
      runLoop (tierMaxIterations configMax prSize) oracle seed count chain
          cache idx =
        (depthLimitConclusion 0 0 chain.length, 0, seed cache)) := by
  have h := runLoop_spec (tierMaxIterations configMax prSize) oracle seed
    (tierMaxIterations configMax prSize - count) count (le_refl _) chain
    cache idx
  refine ⟨h.1, h.2, fun h0 hc => ?_⟩
  subst hc
  rw [runLoop]
  rw [h0]
  simp

/-- Witness for `c4_iteration_ceiling_bounds`: configured maximum 0 gives the
small tier ceiling 0, and the loop returns the synthesized conclusion with
zero fulfilled requests after seeding. -/
theorem c4_iteration_ceiling_bounds_witness :
    tierMaxIterations 0 "small" = 0 ∧
    runLoop (tierMaxIterations 0 "small")
        (fun _ => .requestContext [{ name := "foo" }] "n") (id : Unit → Unit)
        0 [] () 0 =
      (depthLimitConclusion 0 0 0, 0, ()) := by
  refine ⟨by decide, ?_⟩
  have h := (c4_iteration_ceiling_bounds (κ := Unit) 0 "small"
    (fun _ => .requestContext [{ name := "foo" }] "n") id 0 [] () 0).2.2
    (by decide) rfl
  simpa using h

/-- C5: a context request whose item list is empty, or whose items all lack
a name, never produces a `requestCtx` transition: below the ceiling the
analyzer completes in that same round with an implicit conclusion whose
potential risks carry the degenerate-request note. -/
theorem c5_degenerate_request_completes (maxIter count : Nat)
    (chain : List ChainEntry) (items : List SearchItem) (note : String)
    (hlt : count < maxIter)
    (hdeg : items = [] ∨ ∀ it ∈ items, it.name = "") :
    ∃ c : AnalysisConclusion,
      analyzerStep maxIter count chain (.requestContext items note) =
        .complete c (count + 1)
      ∧ c.hasCriticalIssues = false
      ∧ (c.potentialRisks = ["未指定需要搜索的项"]
          ∨ c.potentialRisks = ["搜索项格式错误"]) := by
  have hge : ¬ count ≥ maxIter := by omega
  rcases hdeg with hnil | hnames
  · refine ⟨emptyItemsConclusion count, ?_, rfl, Or.inl rfl⟩
    subst hnil
    simp [analyzerStep, hge]
  · by_cases hie : items.isEmpty
    · refine ⟨emptyItemsConclusion count, ?_, rfl, Or.inl rfl⟩
      simp [analyzerStep, hge, hie]
    · refine ⟨noNamesConclusion count, ?_, rfl, Or.inr rfl⟩
      have hfil : items.filter (fun it => it.name ≠ "") = [] := by
        rw [List.filter_eq_nil_iff]
        intro it hit
        simp [hnames it hit]
      simp [analyzerStep, hge, hie, hfil]
      exact hnames

/-- Witness for `c5_degenerate_request_completes` at an all-nameless request
below a ceiling of 3. -/
theorem c5_degenerate_request_completes_witness :
    (1 : Nat) < 3 ∧ ([{ name := "" }] = ([] : List SearchItem) ∨
        ∀ it ∈ [({ name := "" } : SearchItem)], it.name = "") ∧
      ∃ c : AnalysisConclusion,
        analyzerStep 3 1 [] (.requestContext [{ name := "" }] "note") =
          .complete c 2
        ∧ c.hasCriticalIssues = false
        ∧ (c.potentialRisks = ["未指定需要搜索的项"]
            ∨ c.potentialRisks = ["搜索项格式错误"]) :=
  ⟨by decide, Or.inr (by decide),
    c5_degenerate_request_completes 3 1 [] [{ name := "" }] "note"
      (by decide) (Or.inr (by decide))⟩

end Analyzer

/-- One parsed definition (the `ASTNode` dataclass of ast_parser.py,
lines 26-53).  `line_number` and `end_line` are 1-based and inclusive. -/
structure AstNode where
  name : String
  type : String
  line_number : Nat
  end_line : Nat
  line_content : String := ""
  file_path : String := ""
  parent : Option String := none
  params : Option (List String) := none
  return_type : Option String := none
  docstring : Option String := none
deriving Repr, DecidableEq

namespace AstParser

/-- `Path(filepath).suffix.lower()`: the extension of the final path
component — the part from the last dot, provided that dot is neither the
first nor the last character of the component — lower-cased. -/
def pathSuffix (fp : String) : String :=
  let nm := ((splitOnChar '/' fp).getLastD "").data
  let dotIdxs := (nm.enum.filter (fun p => p.2 = '.')).map Prod.fst
  match dotIdxs.getLast? with
  | none => ""
  | some i =>
    if 0 < i ∧ i + 1 < nm.length then String.mk ((nm.drop i).map Char.toLower)
    else ""

/-- `LANGUAGE_MAP` (ast_parser.py lines 82-100). -/
def languageMapList : List (String × String) :=
  [(".py", "python"), (".js", "javascript"), (".jsx", "javascript"),
   (".ts", "typescript"), (".tsx", "tsx"), (".java", "java"), (".go", "go"),
   (".rs", "rust"), (".cpp", "cpp"), (".cc", "cpp"), (".cxx", "cpp"),
   (".c", "c"), (".h", "cpp"), (".hpp", "cpp"), (".cs", "c_sharp"),
   (".rb", "ruby"), (".php", "php")]

/-- The languages that have a `QUERIES` entry (lines 103-200). -/
def queriesLangs : List String :=
  ["python", "javascript", "typescript", "java", "go", "cpp", "c_sharp"]

/-- Whether `b` is a UTF-8 continuation byte. -/
def isCont (b : Nat) : Bool := 0x80 ≤ b ∧ b ≤ 0xBF

/-- Allowed second byte of a three-byte sequence led by `b` (excludes
overlong encodings and surrogates, as CPython's strict decoder does). -/
def second3Ok (b b1 : Nat) : Bool :=
  if b = 0xE0 then 0xA0 ≤ b1 ∧ b1 ≤ 0xBF
  else if b = 0xED then 0x80 ≤ b1 ∧ b1 ≤ 0x9F
  else isCont b1

/-- Allowed second byte of a four-byte sequence led by `b`. -/
def second4Ok (b b1 : Nat) : Bool :=
  if b = 0xF0 then 0x90 ≤ b1 ∧ b1 ≤ 0xBF
  else if b = 0xF4 then 0x80 ≤ b1 ∧ b1 ≤ 0x8F
  else isCont b1

/-- RFC 3629 UTF-8 validity of a byte sequence: the semantics of
`bytes.decode('utf-8')` succeeding (line 289 of ast_parser.py). -/
def validUtf8 : List Nat → Bool
  | [] => true
  | b :: rest =>
    if b ≤ 0x7F then validUtf8 rest
    else if 0xC2 ≤ b ∧ b ≤ 0xDF then
      match rest with
      | b1 :: rest' => if isCont b1 then validUtf8 rest' else false
      | [] => false
    else if 0xE0 ≤ b ∧ b ≤ 0xEF then
      match rest with
      | b1 :: b2 :: rest' =>
        if second3Ok b b1 ∧ isCont b2 then validUtf8 rest' else false
      | _ => false
    else if 0xF0 ≤ b ∧ b ≤ 0xF4 then
      match rest with
      | b1 :: b2 :: b3 :: rest' =>
        if second4Ok b b1 ∧ isCont b2 ∧ isCont b3 then validUtf8 rest'
        else false
      | _ => false
    else false

/-- What `open(filepath, 'rb')` can observe for a path. -/
inductive FSEntry where
  | absent
  | permissionDenied
  | withBytes (content : List Nat)

/-- The uncaught Python exception `parse_file` can raise. -/
inductive PyExn where
  | unicodeDecodeError
deriving Repr, DecidableEq

/-- The external dependencies of `ASTParser.parse_file`, as inputs:
tree-sitter availability, per-language parser loading (`get_parser`
returning `None` models both unavailability and its caught exceptions), the
file system, the query execution (`none` models the caught query
exception), and the capture-processing of lines 287-389 (`buildNodes`,
whose output is sorted by `line_number` as on line 389; its per-capture
text decoding is abstracted with it). -/
structure ParserEnv (κ : Type) where
  treeSitterAvailable : Bool
  getParserOk : String → Bool
  fs : String → FSEntry
  queryCaptures : String → List Nat → Option κ
  buildNodes : κ → List Nat → List AstNode

/-- Stable ascending insertion by `line_number` for
`sorted(nodes, key=lambda x: x.line_number)`. -/
def insertByLine (x : AstNode) : List AstNode → List AstNode
  | [] => [x]
  | y :: ys =>
    if y.line_number ≤ x.line_number then y :: insertByLine x ys
    else x :: y :: ys

/-- Stable sort by `line_number` (line 389). -/
def sortByLineNumber : List AstNode → List AstNode
  | [] => []
  | x :: xs => insertByLine x (sortByLineNumber xs)

/-- `ASTParser.parse_file` (lines 242-389): grammar selection by extension,
guarded file read, query execution, then — after the query succeeds — the
UTF-8 decode of the source (line 289), which is the one step not protected
by a `try`/`except`. -/
def parse_file {κ : Type} (env : ParserEnv κ) (filepath : String) :
    Except PyExn (List AstNode) :=
  match lookupD languageMapList (pathSuffix filepath) with
  | none => .ok []
  | some language =>
    if ¬ (env.treeSitterAvailable ∧ env.getParserOk language) then .ok []
    else
      match env.fs filepath with
      | .absent => .ok []
      | .permissionDenied => .ok []
      | .withBytes sourceCode =>
        if language ∉ queriesLangs then .ok []
        else
          match env.queryCaptures language sourceCode with
          | none => .ok []
          | some captures =>
            if validUtf8 sourceCode then
              .ok (sortByLineNumber (env.buildNodes captures sourceCode))
            else .error .unicodeDecodeError

/-- A fully working environment whose file contents are the single byte
`0xFF`, which is not valid UTF-8. -/
def envInvalidUtf8 : ParserEnv Unit :=
  { treeSitterAvailable := true
    getParserOk := fun _ => true
    fs := fun _ => .withBytes [0xFF]
    queryCaptures := fun _ _ => some ()
    buildNodes := fun _ _ => [] }

/-- C6 counterexample: `parse_file` is not total.  On a readable `.py` file
whose bytes are not valid UTF-8, the grammar is found, the file is read and
the query succeeds, but the un-guarded `source_code.decode('utf-8')`
(line 289) raises `UnicodeDecodeError` to the caller instead of returning
the empty list. -/
theorem c6_counterexample_invalid_utf8_raises :
    parse_file envInvalidUtf8 "a.py" = .error .unicodeDecodeError := by
  rfl

/-- C6 (amended): `parse_file` returns the empty list on a missing grammar
for the extension, an unavailable or failing parser, a missing or
permission-denied file, a missing query for the language, or a failing
query; and on source bytes that are valid UTF-8 it returns normally.  (It
is not total: invalid UTF-8 raises, see the counterexample.) -/
theorem c6_parse_failures_return_empty {κ : Type} (env : ParserEnv κ)
    (fp : String) :
    (lookupD languageMapList (pathSuffix fp) = none →
      parse_file env fp = .ok [])
    ∧ (∀ lang, lookupD languageMapList (pathSuffix fp) = some lang →
        ((¬ (env.treeSitterAvailable ∧ env.getParserOk lang)) →
          parse_file env fp = .ok [])
        ∧ (env.fs fp = .absent → parse_file env fp = .ok [])
        ∧ (env.fs fp = .permissionDenied → parse_file env fp = .ok [])
        ∧ (∀ content, env.fs fp = .withBytes content →
            (lang ∉ queriesLangs → parse_file env fp = .ok [])
            ∧ (env.queryCaptures lang content = none →
                parse_file env fp = .ok [])
            ∧ (validUtf8 content = true →
                ∃ ns, parse_file env fp = .ok ns))) := by
  constructor
  · intro hnone
    simp [parse_file, hnone]
  · intro lang hlang
    refine ⟨?_, ?_, ?_, ?_⟩
    · intro hna
      simp [parse_file, hlang, hna]
    · intro hfs
      by_cases hna : env.treeSitterAvailable ∧ env.getParserOk lang
      · simp [parse_file, hlang, hna, hfs]
      · simp [parse_file, hlang, hna]
    · intro hfs
      by_cases hna : env.treeSitterAvailable ∧ env.getParserOk lang
      · simp [parse_file, hlang, hna, hfs]
      · simp [parse_file, hlang, hna]
    · intro content hfs
      refine ⟨?_, ?_, ?_⟩
      · intro hq
        by_cases hna : env.treeSitterAvailable ∧ env.getParserOk lang
        · simp [parse_file, hlang, hna, hfs, hq]
        · simp [parse_file, hlang, hna]
      · intro hcap
        by_cases hna : env.treeSitterAvailable ∧ env.getParserOk lang
        · by_cases hq : lang ∈ queriesLangs
          · simp [parse_file, hlang, hna, hfs, hq, hcap]
          · simp [parse_file, hlang, hna, hfs, hq]
        · simp [parse_file, hlang, hna]
      · intro hvalid
        by_cases hna : env.treeSitterAvailable ∧ env.getParserOk lang
        · by_cases hq : lang ∈ queriesLangs
          · cases hcap : env.queryCaptures lang content with
            | none =>
              exact ⟨[], by simp [parse_file, hlang, hna, hfs, hq, hcap]⟩
            | some caps =>
              exact ⟨sortByLineNumber (env.buildNodes caps content),
                by simp [parse_file, hlang, hna, hfs, hq, hcap, hvalid]⟩
          · exact ⟨[], by simp [parse_file, hlang, hna, hfs, hq]⟩
        · exact ⟨[], by simp [parse_file, hlang, hna]⟩

/-- Witness for `c6_parse_failures_return_empty`: a `.txt` path has no
grammar and yields the empty node list. -/
theorem c6_parse_failures_return_empty_witness :
    lookupD languageMapList (pathSuffix "notes.txt") = none ∧
      parse_file envInvalidUtf8 "notes.txt" = .ok [] :=
  ⟨by rfl,
    (c6_parse_failures_return_empty envInvalidUtf8 "notes.txt").1 (by rfl)⟩

end AstParser

namespace Extractor

/-- The snippet dict returned by `_extract_ast_code_block`
(context_collector_agent.py lines 346-359). -/
structure Snippet where
  file : String
  line : Nat
  function : String
  type : String
  start_line : Nat
  end_line : Nat
  context : String
  matched_line : String
  extraction_method : String
  block_info : String
  docstring : Option String := none
  params : Option (List String) := none
deriving Repr, DecidableEq

/-- `lines[a:b]` for non-negative bounds. -/
def pySlice (lines : List String) (a b : Nat) : List String :=
  (lines.drop a).take (b - a)

/-- `lines[line_num - 1] if line_num <= len(lines) else ""` (line 354).
Callers guarantee `line_num >= 1` (matches with `line_num <= 0` are skipped
at line 254). -/
def matchedLineOf (lines : List String) (lineNum : Nat) : String :=
  if lineNum ≤ lines.length then (lines.drop (lineNum - 1)).headD "" else ""

/-- The loop body of the enclosing-node search (lines 310-317): keep the
node with the strictly smaller span, so ties keep the earlier node. -/
def selStep (lineNum : Nat) (enclosing : Option AstNode) (node : AstNode) :
    Option AstNode :=
  if node.line_number ≤ lineNum ∧ lineNum ≤ node.end_line then
    match enclosing with
    | none => some node
    | some b =>
      if node.end_line - node.line_number < b.end_line - b.line_number then
        some node
      else some b
  else enclosing

/-- The enclosing-node search over all AST nodes (lines 309-317). -/
def selectEnclosing (lineNum : Nat) (astNodes : List AstNode) :
    Option AstNode :=
  astNodes.foldl (selStep lineNum) none

/-- `_extract_ast_code_block` (lines 287-363): select the smallest enclosing
node; blocks over 300 lines get a windowed excerpt
(`lines[max(start, line-51) : min(end, line+50)]`), smaller blocks are
returned whole; the returned `start_line`/`end_line` fields are the block's
clipped bounds in both cases. -/
def extractAstCodeBlock (filePath : String) (lineNum : Nat)
    (lines : List String) (astNodes : List AstNode) : Option Snippet :=
  match selectEnclosing lineNum astNodes with
  | none => none
  | some node =>
    let startLine := max 0 (node.line_number - 1)
    let endLine := min lines.length node.end_line
    let codeBlock := String.join (pySlice lines startLine endLine)
    let blockLines := endLine - startLine
    if blockLines > 300 then
      let contextStart := max startLine (lineNum - 51)
      let contextEnd := min endLine (lineNum + 50)
      some { file := filePath
             line := lineNum
             function := node.name
             type := node.type
             start_line := startLine + 1
             end_line := endLine
             context := String.join (pySlice lines contextStart contextEnd)
             matched_line := matchedLineOf lines lineNum
             extraction_method := "AST"
             block_info := "[代码块过大，显示部分: L"
               ++ toString (contextStart + 1) ++ "-L" ++ toString contextEnd
               ++ "]"
             docstring := node.docstring
             params := node.params }
    else
      some { file := filePath
             line := lineNum
             function := node.name
             type := node.type
             start_line := startLine + 1
             end_line := endLine
             context := codeBlock
             matched_line := matchedLineOf lines lineNum
             extraction_method := "AST"
             block_info := "[完整" ++ node.type ++ "定义: L"
               ++ toString (startLine + 1) ++ "-L" ++ toString endLine ++ "]"
             docstring := node.docstring
             params := node.params }

/-- Invariant carried by the enclosing-node fold: relative to the nodes seen
so far, `none` means no node contains the line, and `some c` means `c` is a
containing node of minimal span. -/
def SelGood (lineNum : Nat) (seen : List AstNode) (o : Option AstNode) :
    Prop :=
  (o = none →
    ∀ n ∈ seen, ¬(n.line_number ≤ lineNum ∧ lineNum ≤ n.end_line))
  ∧ (∀ c, o = some c → c ∈ seen
      ∧ (c.line_number ≤ lineNum ∧ lineNum ≤ c.end_line)
      ∧ ∀ n ∈ seen, n.line_number ≤ lineNum → lineNum ≤ n.end_line →
          c.end_line - c.line_number ≤ n.end_line - n.line_number)

theorem selStep_good (lineNum : Nat) (seen : List AstNode)
    (best : Option AstNode) (node : AstNode)
    (h : SelGood lineNum seen best) :
    SelGood lineNum (seen ++ [node]) (selStep lineNum best node) := by
  obtain ⟨hnone, hsome⟩ := h
  by_cases hc : node.line_number ≤ lineNum ∧ lineNum ≤ node.end_line
  · cases best with
    | none =>
      simp only [selStep, if_pos hc]
      constructor
      · intro habs; cases habs
      · intro c hcc
        cases hcc
        refine ⟨by simp, hc, ?_⟩
        intro n hn hn1 hn2
        rcases List.mem_append.mp hn with hn | hn
        · exact absurd ⟨hn1, hn2⟩ (hnone rfl n hn)
        · simp only [List.mem_singleton] at hn
          subst hn
          exact le_refl _
    | some b =>
      obtain ⟨hbmem, hbc, hbmin⟩ := hsome b rfl
      by_cases hlt : node.end_line - node.line_number <
          b.end_line - b.line_number
      · simp only [selStep, if_pos hc, if_pos hlt]
        constructor
        · intro habs; cases habs
        · intro c hcc
          cases hcc
          refine ⟨by simp, hc, ?_⟩
          intro n hn hn1 hn2
          rcases List.mem_append.mp hn with hn | hn
          · exact le_trans (le_of_lt hlt) (hbmin n hn hn1 hn2)
          · simp only [List.mem_singleton] at hn
            subst hn
            exact le_refl _
      · simp only [selStep, if_pos hc, if_neg hlt]
        constructor
        · intro habs; cases habs
        · intro c hcc
          cases hcc
          refine ⟨List.mem_append_left _ hbmem, hbc, ?_⟩
          intro n hn hn1 hn2
          rcases List.mem_append.mp hn with hn | hn
          · exact hbmin n hn hn1 hn2
          · simp only [List.mem_singleton] at hn
            subst hn
            omega
  · simp only [selStep, if_neg hc]
    constructor
    · intro ho n hn
      rcases List.mem_append.mp hn with hn | hn
      · exact hnone ho n hn
      · simp only [List.mem_singleton] at hn
        subst hn
        exact hc
    · intro c hcc
      obtain ⟨hm, hcl, hmin⟩ := hsome c hcc
      refine ⟨List.mem_append_left _ hm, hcl, ?_⟩
      intro n hn hn1 hn2
      rcases List.mem_append.mp hn with hn | hn
      · exact hmin n hn hn1 hn2
      · simp only [List.mem_singleton] at hn
        subst hn
        exact absurd ⟨hn1, hn2⟩ hc

theorem selectEnclosing_foldl_good (lineNum : Nat) :
    ∀ (nodes seen : List AstNode) (best : Option AstNode),
      SelGood lineNum seen best →
      SelGood lineNum (seen ++ nodes) (nodes.foldl (selStep lineNum) best) := by
  intro nodes
  induction nodes with
  | nil => intro seen best h; simpa using h
  | cons n rest ih =>
    intro seen best h
    have h1 := selStep_good lineNum seen best n h
    have h2 := ih (seen ++ [n]) (selStep lineNum best n) h1
    simpa [List.append_assoc] using h2

theorem selectEnclosing_good (lineNum : Nat) (astNodes : List AstNode) :
    SelGood lineNum astNodes (selectEnclosing lineNum astNodes) := by
  have h0 : SelGood lineNum [] none := by
    constructor
    · intro _ n hn; cases hn
    · intro c hc; cases hc
  simpa using selectEnclosing_foldl_good lineNum astNodes [] none h0

theorem extract_fields (filePath : String) (lineNum : Nat)
    (lines : List String) (astNodes : List AstNode) (c : AstNode)
    (hsel : selectEnclosing lineNum astNodes = some c) :
    ∃ s, extractAstCodeBlock filePath lineNum lines astNodes = some s
      ∧ s.start_line = max 0 (c.line_number - 1) + 1
      ∧ s.end_line = min lines.length c.end_line := by
  unfold extractAstCodeBlock
  rw [hsel]
  dsimp only
  by_cases hbl :
      min lines.length c.end_line - max 0 (c.line_number - 1) > 300
  · rw [if_pos hbl]
    exact ⟨_, rfl, rfl, rfl⟩
  · rw [if_neg hbl]
    exact ⟨_, rfl, rfl, rfl⟩

/-- C7: for a match line contained in at least one indexed definition (the
index being well-formed for the file: 1-based start lines, end lines within
the file), the extractor selects a containing `DefinitionNode` of minimal
span `endLine - startLine` and the returned snippet's `start_line` and
`end_line` equal that definition's declared span exactly (this holds whether
or not the 300-line oversize threshold is exceeded, so in particular at or
below it); when no indexed definition contains the line it returns `none`
and the caller falls back. -/
theorem c7_minimal_span_exact_bounds (filePath : String) (lineNum : Nat)
    (lines : List String) (astNodes : List AstNode)
    (hwf : ∀ n ∈ astNodes, 1 ≤ n.line_number ∧ n.end_line ≤ lines.length) :
    ((∀ n ∈ astNodes, ¬(n.line_number ≤ lineNum ∧ lineNum ≤ n.end_line)) →
      extractAstCodeBlock filePath lineNum lines astNodes = none)
    ∧ (∀ n₀ ∈ astNodes, n₀.line_number ≤ lineNum → lineNum ≤ n₀.end_line →
      ∃ c s, selectEnclosing lineNum astNodes = some c
        ∧ c ∈ astNodes
        ∧ c.line_number ≤ lineNum ∧ lineNum ≤ c.end_line
        ∧ (∀ n ∈ astNodes, n.line_number ≤ lineNum → lineNum ≤ n.end_line →
            c.end_line - c.line_number ≤ n.end_line - n.line_number)
        ∧ extractAstCodeBlock filePath lineNum lines astNodes = some s
        ∧ s.start_line = c.line_number ∧ s.end_line = c.end_line) := by
  have hgood := selectEnclosing_good lineNum astNodes
  constructor
  · intro hnocontain
    cases hsel : selectEnclosing lineNum astNodes with
    | none => simp [extractAstCodeBlock, hsel]
    | some c =>
      obtain ⟨hm, hcl, _⟩ := hgood.2 c hsel
      exact absurd hcl (hnocontain c hm)
  · intro n₀ hn₀ h1 h2
    cases hsel : selectEnclosing lineNum astNodes with
    | none => exact absurd ⟨h1, h2⟩ (hgood.1 hsel n₀ hn₀)
    | some c =>
      obtain ⟨hm, hcl, hmin⟩ := hgood.2 c hsel
      obtain ⟨s, hs, hstart, hend⟩ :=
        extract_fields filePath lineNum lines astNodes c hsel
      refine ⟨c, s, rfl, hm, hcl.1, hcl.2,
        fun n hn hna hnb => hmin n hn hna hnb, hs, ?_, ?_⟩
      · rw [hstart]
        have := (hwf c hm).1
        omega
      · rw [hend]
        exact min_eq_right (hwf c hm).2

/-- The three-line file of the extraction witness. -/
def linesW : List String := ["a\n", "b\n", "c\n"]

/-- A function definition spanning lines 1-3 of `linesW`. -/
def nodeW : AstNode :=
  { name := "f", type := "function", line_number := 1, end_line := 3 }

/-- Witness for `c7_minimal_span_exact_bounds` on a three-line file with one
function spanning lines 1-3 and a match on line 2. -/
theorem c7_minimal_span_exact_bounds_witness :
    (∀ n ∈ [nodeW], 1 ≤ n.line_number ∧ n.end_line ≤ linesW.length) ∧
    (∃ c s, selectEnclosing 2 [nodeW] = some c
      ∧ c ∈ [nodeW]
      ∧ c.line_number ≤ 2 ∧ 2 ≤ c.end_line
      ∧ (∀ n ∈ [nodeW], n.line_number ≤ 2 → 2 ≤ n.end_line →
          c.end_line - c.line_number ≤ n.end_line - n.line_number)
      ∧ extractAstCodeBlock "f.py" 2 linesW [nodeW] = some s
      ∧ s.start_line = c.line_number ∧ s.end_line = c.end_line) :=
  ⟨by decide,
    (c7_minimal_span_exact_bounds "f.py" 2 linesW [nodeW] (by decide)).2
      nodeW (by decide) (by decide) (by decide)⟩

/-- A 310-line file (each line is its 0-based index followed by a newline). -/
def linesBig : List String := (List.range 310).map (fun i => toString i ++ "\n")

/-- A single definition spanning the whole 310-line file. -/
def nodeBig : AstNode :=
  { name := "big", type := "function", line_number := 1, end_line := 310 }

set_option maxRecDepth 10000 in
/-- C8 counterexample: for a match on line 60 of a 310-line block, the
emitted excerpt is `lines[9:110]` — covering 1-based lines 10 to 110, i.e.
50 lines before the matched line, not 51: the window claimed by the
original statement, `lines[8:110]`, differs. -/
theorem c8_counterexample_window_has_50_before :
    (extractAstCodeBlock "f.py" 60 linesBig [nodeBig]).map Snippet.context
        = some (String.join (pySlice linesBig 9 110))
    ∧ String.join (pySlice linesBig 9 110)
        ≠ String.join (pySlice linesBig 8 110) := by
  constructor
  · rfl
  · decide

theorem extract_big_eq (filePath : String) (lineNum : Nat)
    (lines : List String) (astNodes : List AstNode) (c : AstNode)
    (hsel : selectEnclosing lineNum astNodes = some c)
    (hbig : min lines.length c.end_line - max 0 (c.line_number - 1) > 300) :
    extractAstCodeBlock filePath lineNum lines astNodes = some
      { file := filePath
        line := lineNum
        function := c.name
        type := c.type
        start_line := max 0 (c.line_number - 1) + 1
        end_line := min lines.length c.end_line
        context := String.join (pySlice lines
          (max (max 0 (c.line_number - 1)) (lineNum - 51))
          (min (min lines.length c.end_line) (lineNum + 50)))
        matched_line := matchedLineOf lines lineNum
        extraction_method := "AST"
        block_info := "[代码块过大，显示部分: L"
          ++ toString (max (max 0 (c.line_number - 1)) (lineNum - 51) + 1)
          ++ "-L" ++ toString (min (min lines.length c.end_line)
            (lineNum + 50)) ++ "]"
        docstring := c.docstring
        params := c.params } := by
  unfold extractAstCodeBlock
  rw [hsel]
  dsimp only
  rw [if_pos hbig]

theorem extract_small_eq (filePath : String) (lineNum : Nat)
    (lines : List String) (astNodes : List AstNode) (c : AstNode)
    (hsel : selectEnclosing lineNum astNodes = some c)
    (hsmall : ¬ min lines.length c.end_line - max 0 (c.line_number - 1)
      > 300) :
    extractAstCodeBlock filePath lineNum lines astNodes = some
      { file := filePath
        line := lineNum
        function := c.name
        type := c.type
        start_line := max 0 (c.line_number - 1) + 1
        end_line := min lines.length c.end_line
        context := String.join (pySlice lines (max 0 (c.line_number - 1))
          (min lines.length c.end_line))
        matched_line := matchedLineOf lines lineNum
        extraction_method := "AST"
        block_info := "[完整" ++ c.type ++ "定义: L"
          ++ toString (max 0 (c.line_number - 1) + 1) ++ "-L"
          ++ toString (min lines.length c.end_line) ++ "]"
        docstring := c.docstring
        params := c.params } := by
  unfold extractAstCodeBlock
  rw [hsel]
  dsimp only
  rw [if_neg hsmall]

/-- C8 (amended): when the selected block's clipped line count exceeds 300,
the excerpt is the slice `lines[max(blockStart, line-51) : min(blockEnd,
line+50)]` — when unclipped this covers 50 lines before the matched line,
the matched line, and 50 lines after it (101 lines) — and the snippet is
marked as a partial extraction; blocks of 300 lines or fewer are emitted
whole and marked complete. -/
theorem c8_window_50_before_50_after (filePath : String) (lineNum : Nat)
    (lines : List String) (astNodes : List AstNode) (c : AstNode)
    (hsel : selectEnclosing lineNum astNodes = some c) :
    (min lines.length c.end_line - max 0 (c.line_number - 1) > 300 →
      ∃ s, extractAstCodeBlock filePath lineNum lines astNodes = some s
        ∧ s.context = String.join (pySlice lines
            (max (max 0 (c.line_number - 1)) (lineNum - 51))
            (min (min lines.length c.end_line) (lineNum + 50)))
        ∧ s.block_info = "[代码块过大，显示部分: L"
            ++ toString (max (max 0 (c.line_number - 1)) (lineNum - 51) + 1)
            ++ "-L" ++ toString (min (min lines.length c.end_line)
              (lineNum + 50)) ++ "]"
        ∧ (max 0 (c.line_number - 1) ≤ lineNum - 51 →
            lineNum + 50 ≤ min lines.length c.end_line →
            s.context = String.join (pySlice lines (lineNum - 51)
              (lineNum + 50))
            ∧ (51 ≤ lineNum → lineNum + 50 ≤ lines.length →
                (pySlice lines (lineNum - 51) (lineNum + 50)).length = 101)))
    ∧ (min lines.length c.end_line - max 0 (c.line_number - 1) ≤ 300 →
      ∃ s, extractAstCodeBlock filePath lineNum lines astNodes = some s
        ∧ s.context = String.join (pySlice lines (max 0 (c.line_number - 1))
            (min lines.length c.end_line))
        ∧ s.block_info = "[完整" ++ c.type ++ "定义: L"
            ++ toString (max 0 (c.line_number - 1) + 1) ++ "-L"
            ++ toString (min lines.length c.end_line) ++ "]") := by
  constructor
  · intro hbig
    refine ⟨_, extract_big_eq filePath lineNum lines astNodes c hsel hbig,
      rfl, rfl, ?_⟩
    intro hlo hhi
    constructor
    · show String.join (pySlice lines
          (max (max 0 (c.line_number - 1)) (lineNum - 51))
          (min (min lines.length c.end_line) (lineNum + 50))) = _
      rw [max_eq_right hlo, min_eq_right hhi]
    · intro h51 hlen
      simp only [pySlice, List.length_take, List.length_drop]
      omega
  · intro hsmall
    exact ⟨_, extract_small_eq filePath lineNum lines astNodes c hsel
      (by omega), rfl, rfl⟩

set_option maxRecDepth 10000 in
/-- Witness for `c8_window_50_before_50_after` at the 310-line oversize
block with a match on line 60. -/
theorem c8_window_50_before_50_after_witness :
    selectEnclosing 60 [nodeBig] = some nodeBig ∧
    (min linesBig.length nodeBig.end_line
        - max 0 (nodeBig.line_number - 1) > 300) ∧
    (∃ s, extractAstCodeBlock "f.py" 60 linesBig [nodeBig] = some s
      ∧ s.context = String.join (pySlice linesBig
          (max (max 0 (nodeBig.line_number - 1)) (60 - 51))
          (min (min linesBig.length nodeBig.end_line) (60 + 50)))
      ∧ s.block_info = "[代码块过大，显示部分: L"
          ++ toString (max (max 0 (nodeBig.line_number - 1)) (60 - 51) + 1)
          ++ "-L" ++ toString (min (min linesBig.length nodeBig.end_line)
            (60 + 50)) ++ "]"
      ∧ (max 0 (nodeBig.line_number - 1) ≤ 60 - 51 →
          60 + 50 ≤ min linesBig.length nodeBig.end_line →
          s.context = String.join (pySlice linesBig (60 - 51) (60 + 50))
          ∧ (51 ≤ 60 → 60 + 50 ≤ linesBig.length →
              (pySlice linesBig (60 - 51) (60 + 50)).length = 101))) :=
  ⟨by rfl, by decide,
    (c8_window_50_before_50_after "f.py" 60 linesBig [nodeBig] nodeBig
      (by rfl)).1 (by decide)⟩

end Extractor

namespace Searcher

/-- One match dict of `_search_with_python`
(fast_file_searcher.py lines 314-320). -/
structure SMatch where
  line_number : Nat
  line : String
  text : String
  before : List String
  after : List String
deriving Repr, DecidableEq

/-- Python `str.rstrip()`: drop trailing whitespace. -/
def rstrip (s : String) : String :=
  String.mk ((s.data.reverse.dropWhile Char.isWhitespace).reverse)

/-- `self.max_results` (line 29). -/
def maxResults : Nat := 300

/-- `self.context_lines` (line 30). -/
def contextLines : Nat := 2

/-- `self.max_file_size` (line 31). -/
def maxFileSize : Nat := 1000000

/-- `self.min_file_size` (line 32). -/
def minFileSize : Nat := 1

/-- The externals of `_search_with_python`: `os.path.getsize` (`none` models
`OSError`), `_get_file_content` (`none` models unreadable files; the
process-wide FIFO cache only affects which reads hit the disk, not the
returned lines), `os.path.relpath(·, directory)`, and the `fnmatch` test
against the comma-separated file patterns. -/
structure SearchEnv where
  fileSize : String → Option Nat
  content : String → Option (List String)
  relPath : String → String
  fnmatchAny : String → Bool

/-- The scan of one file's lines (lines 305-323): each matching line is
recorded with its 1-based line number and two context lines each way; the
global result counter stops the scan when it reaches `max_results`. -/
def scanLines (matcher : String → Bool) (allLines : List String) :
    List String → Nat → Nat → List SMatch × Nat
  | [], _, count => ([], count)
  | line :: rest, i, count =>
    if matcher line then
      let m : SMatch :=
        { line_number := i + 1
          line := rstrip line
          text := rstrip line
          before := (Extractor.pySlice allLines (i - contextLines) i).map rstrip
          after := (Extractor.pySlice allLines (i + 1)
            (i + 1 + contextLines)).map rstrip }
      if count + 1 ≥ maxResults then ([m], count + 1)
      else
        let r := scanLines matcher allLines rest (i + 1) (count + 1)
        (m :: r.1, r.2)
    else scanLines matcher allLines rest (i + 1) count

/-- Append a file's matches to the results dict: extend the existing entry
in place, else add a new key at the end (the per-match
`results[rel_path].append` loop, lines 308-320). -/
def dictAppend (d : List (String × List SMatch)) (k : String)
    (ms : List SMatch) : List (String × List SMatch) :=
  match lookupD d k with
  | some existing => dictInsert d k (existing ++ ms)
  | none => d ++ [(k, ms)]

/-- Processing of one directory entry (lines 279-323): result-cap guard,
file-pattern filter, size guard, guarded read, scan. -/
def processFile (env : SearchEnv) (matcher : String → Bool)
    (isStarPattern : Bool) (root file : String)
    (acc : List (String × List SMatch) × Nat) :
    List (String × List SMatch) × Nat :=
  if acc.2 ≥ maxResults then acc
  else if ¬ isStarPattern ∧ ¬ env.fnmatchAny file then acc
  else
    let filepath := root ++ "/" ++ file
    let rel := env.relPath filepath
    match env.fileSize filepath with
    | none => acc
    | some sz =>
      if sz > maxFileSize ∨ sz < minFileSize then acc
      else
        match env.content filepath with
        | none => acc
        | some lines =>
          let r := scanLines matcher lines lines 0 acc.2
          (if r.1.isEmpty then acc.1 else dictAppend acc.1 rel r.1, r.2)

/-- `FastFileSearcher._search_with_python` (lines 261-325).  `walk` is the
`(root, files)` sequence yielded by `os.walk` after the in-place pruning of
`DEFAULT_IGNORE_DIRS` (line 277) — an external enumeration whose order is
the file system's; `matcher` is `re.compile(regex).search`;
`isStarPattern` is the `file_pattern != "*"` test. -/
def searchWithPython (env : SearchEnv) (walk : List (String × List String))
    (matcher : String → Bool) (isStarPattern : Bool) :
    List (String × List SMatch) :=
  (walk.foldl
    (fun acc rf =>
      rf.2.foldl (fun a file => processFile env matcher isStarPattern rf.1 file a)
        acc)
    ([], 0)).1

/-- An environment where every file exists, has one matching line, and
`relpath` is the identity. -/
def envTwoFiles : SearchEnv :=
  { fileSize := fun _ => some 1
    content := fun _ => some ["hit\n"]
    relPath := fun s => s
    fnmatchAny := fun _ => true }

/-- A directory whose enumeration yields `b.txt` before `a.txt`. -/
def walkTwoFiles : List (String × List String) := [(".", ["b.txt", "a.txt"])]

/-- C9 counterexample: the fallback scanner emits files in the directory
enumeration order and never sorts by path: with the walk yielding `b.txt`
before `a.txt` the result keys are `./b.txt`, `./a.txt`, which is not
ordered by file path, so the two backends are not guaranteed an identically
ordered result. -/
theorem c9_counterexample_not_sorted_by_path :
    (searchWithPython envTwoFiles walkTwoFiles (fun _ => true) true).map
        Prod.fst = ["./b.txt", "./a.txt"]
    ∧ ("./a.txt" : String).data < ("./b.txt" : String).data
    ∧ ¬ List.Sorted (fun a b : String => a.data < b.data)
        ((searchWithPython envTwoFiles walkTwoFiles (fun _ => true)
          true).map Prod.fst) := by
  refine ⟨by rfl, by decide, ?_⟩
  intro hsorted
  have h := List.rel_of_sorted_cons (by rw [show (searchWithPython envTwoFiles
    walkTwoFiles (fun _ => true) true).map Prod.fst
      = ["./b.txt", "./a.txt"] from rfl] at hsorted; exact hsorted)
    "./a.txt" (by simp)
  revert h
  decide

theorem scanLines_ascending (matcher : String → Bool)
    (allLines : List String) :
    ∀ (ls : List String) (i count : Nat),
      List.Pairwise (· < ·)
        ((scanLines matcher allLines ls i count).1.map SMatch.line_number)
      ∧ ∀ m ∈ (scanLines matcher allLines ls i count).1,
          i + 1 ≤ m.line_number := by
  intro ls
  induction ls with
  | nil => intro i count; simp [scanLines]
  | cons line rest ih =>
    intro i count
    by_cases hm : matcher line
    · by_cases hc : count + 1 ≥ maxResults
      · simp [scanLines, hm, hc]
      · have hrec := ih (i + 1) (count + 1)
        simp only [scanLines, hm, if_true, hc, if_false]
        try dsimp only
        simp only [List.map_cons, List.pairwise_cons, List.mem_cons]
        constructor
        · constructor
          · intro a ha
            simp only [List.mem_map] at ha
            obtain ⟨m, hmem, hline⟩ := ha
            have := hrec.2 m hmem
            omega
          · exact hrec.1
        · intro m hm'
          rcases hm' with hme | hmem
          · subst hme
            simp
          · have := hrec.2 m hmem
            omega
    · simp only [scanLines, hm, if_false]
      have hrec := ih (i + 1) count
      refine ⟨hrec.1, fun m hmem => ?_⟩
      have := hrec.2 m hmem
      omega

theorem lookupD_eq_none {α : Type} (d : List (String × α)) (k : String)
    (h : ∀ p ∈ d, p.1 ≠ k) : lookupD d k = none := by
  unfold lookupD
  rw [List.find?_eq_none.mpr]
  · rfl
  · intro p hp
    simpa using h p hp

theorem dictAppend_fresh (d : List (String × List SMatch)) (k : String)
    (ms : List SMatch) (h : ∀ p ∈ d, p.1 ≠ k) :
    dictAppend d k ms = d ++ [(k, ms)] := by
  simp [dictAppend, lookupD_eq_none d k h]

theorem processFile_result (env : SearchEnv) (matcher : String → Bool)
    (isStar : Bool) (root file : String)
    (acc : List (String × List SMatch) × Nat) :
    (processFile env matcher isStar root file acc).1 = acc.1
    ∨ ∃ lines,
        env.content (root ++ "/" ++ file) = some lines
        ∧ (processFile env matcher isStar root file acc).1 =
            dictAppend acc.1 (env.relPath (root ++ "/" ++ file))
              (scanLines matcher lines lines 0 acc.2).1 := by
  unfold processFile
  by_cases h1 : acc.2 ≥ maxResults
  · left; simp [h1]
  · rw [if_neg h1]
    by_cases h2 : ¬ isStar ∧ ¬ env.fnmatchAny file
    · left; simp [h2]
    · rw [if_neg h2]
      dsimp only
      cases hsz : env.fileSize (root ++ "/" ++ file) with
      | none => left; rfl
      | some sz =>
        dsimp only
        by_cases h3 : sz > maxFileSize ∨ sz < minFileSize
        · left; simp [h3]
        · rw [if_neg h3]
          cases hct : env.content (root ++ "/" ++ file) with
          | none => left; rfl
          | some lines =>
            dsimp only
            by_cases h4 :
                (scanLines matcher lines lines 0 acc.2).1.isEmpty
            · left; simp [h4]
            · right
              exact ⟨lines, rfl, by simp [h4]⟩

theorem processFile_fold_inv (env : SearchEnv) (matcher : String → Bool)
    (isStar : Bool) :
    ∀ (pairs : List (String × String))
      (acc : List (String × List SMatch) × Nat) (processed : List String),
      (∀ fr ∈ acc.1,
        List.Pairwise (· < ·) (fr.2.map SMatch.line_number)) →
      (∀ fr ∈ acc.1, fr.1 ∈ processed) →
      (processed ++ pairs.map
        (fun p => env.relPath (p.1 ++ "/" ++ p.2))).Nodup →
      ∀ fr ∈ (pairs.foldl
          (fun a p => processFile env matcher isStar p.1 p.2 a) acc).1,
        List.Pairwise (· < ·) (fr.2.map SMatch.line_number) := by
  intro pairs
  induction pairs with
  | nil => intro acc processed hasc _ _ fr hfr; exact hasc fr hfr
  | cons p rest ih =>
    intro acc processed hasc hkeys hnodup
    simp only [List.foldl_cons]
    set rel := env.relPath (p.1 ++ "/" ++ p.2) with hrel
    have hrelnew : rel ∉ processed := by
      have := hnodup
      simp only [List.map_cons, List.nodup_append] at this
      intro hmem
      exact this.2.2 hmem (by simp)
    have hnodup' : ((processed ++ [rel]) ++ rest.map
        (fun q => env.relPath (q.1 ++ "/" ++ q.2))).Nodup := by
      simpa [List.append_assoc] using hnodup
    rcases processFile_result env matcher isStar p.1 p.2 acc with
      hsame | ⟨lines, _, hnew⟩
    · refine ih (processFile env matcher isStar p.1 p.2 acc)
        (processed ++ [rel]) ?_ ?_ hnodup'
      · rw [hsame]; exact hasc
      · rw [hsame]
        intro fr hfr
        exact List.mem_append_left _ (hkeys fr hfr)
    · refine ih (processFile env matcher isStar p.1 p.2 acc)
        (processed ++ [rel]) ?_ ?_ hnodup'
      · rw [hnew]
        rw [dictAppend_fresh _ _ _
          (fun q hq hqk => hrelnew (by rw [hrel, ← hqk]; exact hkeys q hq))]
        intro fr hfr
        rcases List.mem_append.mp hfr with hfr | hfr
        · exact hasc fr hfr
        · simp only [List.mem_singleton] at hfr
          subst hfr
          exact (scanLines_ascending matcher lines lines 0 acc.2).1
      · rw [hnew]
        rw [dictAppend_fresh _ _ _
          (fun q hq hqk => hrelnew (by rw [hrel, ← hqk]; exact hkeys q hq))]
        intro fr hfr
        rcases List.mem_append.mp hfr with hfr | hfr
        · exact List.mem_append_left _ (hkeys fr hfr)
        · simp only [List.mem_singleton] at hfr
          subst hfr
          simp

theorem foldl_nested_eq_flat (env : SearchEnv) (matcher : String → Bool)
    (isStar : Bool) :
    ∀ (walk : List (String × List String))
      (acc : List (String × List SMatch) × Nat),
      walk.foldl (fun a rf => rf.2.foldl
        (fun b file => processFile env matcher isStar rf.1 file b) a) acc
      = ((walk.map (fun rf => rf.2.map (fun file => (rf.1, file)))).flatten).foldl
          (fun a p => processFile env matcher isStar p.1 p.2 a) acc := by
  intro walk
  induction walk with
  | nil => intro acc; rfl
  | cons rf rest ih =>
    intro acc
    simp only [List.foldl_cons, List.map_cons, List.flatten_cons,
      List.foldl_append]
    rw [ih]
    congr 1
    clear ih
    induction rf.2 generalizing acc with
    | nil => rfl
    | cons f fs ihf =>
      simp only [List.foldl_cons, List.map_cons]
      rw [ihf]

/-- C9 (amended): within each file the in-process fallback scanner returns
matches in strictly ascending line-number order (for any directory
enumeration whose relative paths are distinct, as on a real file system);
the cross-file order, however, follows the enumeration order and is not
sorted by path — see the counterexample. -/
theorem c9_within_file_ascending (env : SearchEnv)
    (walk : List (String × List String)) (matcher : String → Bool)
    (isStar : Bool)
    (hnodup : ((walk.map (fun rf => rf.2.map
      (fun file => env.relPath (rf.1 ++ "/" ++ file)))).flatten).Nodup) :
    ∀ fr ∈ searchWithPython env walk matcher isStar,
      List.Pairwise (· < ·) (fr.2.map SMatch.line_number) := by
  unfold searchWithPython
  rw [foldl_nested_eq_flat]
  refine processFile_fold_inv env matcher isStar _ ([], 0) []
    (by intro fr hfr; cases hfr) (by intro fr hfr; cases hfr) ?_
  simp only [List.nil_append]
  have hmapmap : ((walk.map (fun rf => rf.2.map
        (fun file => (rf.1, file)))).flatten).map
      (fun p => env.relPath (p.1 ++ "/" ++ p.2))
      = ((walk.map (fun rf => rf.2.map
        (fun file => env.relPath (rf.1 ++ "/" ++ file)))).flatten) := by
    rw [List.map_flatten, List.map_map]
    have hfun : ((List.map fun p : String × String =>
          env.relPath (p.1 ++ "/" ++ p.2)) ∘
        fun rf : String × List String =>
          List.map (fun file => (rf.1, file)) rf.2)
        = fun rf : String × List String =>
            List.map (fun file => env.relPath (rf.1 ++ "/" ++ file)) rf.2 := by
      funext rf
      simp [Function.comp, List.map_map]
    rw [hfun]
  rw [hmapmap]
  exact hnodup

/-- Witness for `c9_within_file_ascending` on the two-file store. -/
theorem c9_within_file_ascending_witness :
    (((walkTwoFiles.map (fun rf => rf.2.map
      (fun file => envTwoFiles.relPath (rf.1 ++ "/" ++ file)))).flatten).Nodup)
    ∧ ∀ fr ∈ searchWithPython envTwoFiles walkTwoFiles (fun _ => true) true,
        List.Pairwise (· < ·) (fr.2.map SMatch.line_number) :=
  ⟨by decide,
    c9_within_file_ascending envTwoFiles walkTwoFiles (fun _ => true) true
      (by decide)⟩

end Searcher

namespace Collector

/-- One evidence entry (`dependencies[item_name]`,
context_collector_agent.py lines 509-517). -/
structure Evidence where
  type : String
  reason : String
  used_in_files : List String
  usage_count : Nat
  usage_details : List (String × List String)
  code_snippets : List Extractor.Snippet
  search_status : String
deriving Repr, DecidableEq

/-- The externals of the collector round: `_build_search_patterns` (pure
regex-string construction, lines 133-188), `file_searcher.batch_search`
(the pattern-key-indexed result dict of the external search, line 469), and
`_extract_code_context` (file reads plus AST block extraction threading the
AST cache, lines 202-284). -/
structure CollectorEnv where
  buildPatterns : String → String → List String
  batchSearch : List (String × String) →
    String → Option (List (String × List Searcher.SMatch))
  extractContext : List (String × List Searcher.SMatch) →
    List (String × List AstNode) →
    List Extractor.Snippet × List (String × List AstNode)

/-- The per-size search breadth (lines 68-75). -/
structure CollectorCfg where
  maxFilesPerItem : Nat
  maxMatchesPerFile : Nat
deriving Repr, DecidableEq

/-- `size_config.get(pr_size, size_config['medium'])`. -/
def sizeConfigOf (prSize : String) : CollectorCfg :=
  if prSize = "small" then ⟨30, 6⟩
  else if prSize = "medium" then ⟨20, 4⟩
  else if prSize = "large" then ⟨16, 4⟩
  else if prSize = "xlarge" then ⟨10, 2⟩
  else ⟨20, 4⟩

/-- The constant glob list of `_ripgrep_ast_search` (line 449). -/
def filePatternStr : String := "*.py,*.cpp,*.h,*.hpp,*.c,*.cs,*.java,*.js,*.ts"

/-- `f"{pattern}|{file_pattern}"`. -/
def patternKey (p : String) : String := p ++ "|" ++ filePatternStr

/-- One step of the first collection phase (lines 81-95): skip a nameless
item, serve a cached name from `all_collected_context`, queue the rest. -/
def phase1Step (collected : List (String × Evidence))
    (acc : List (String × Evidence) × List SearchItem) (it : SearchItem) :
    List (String × Evidence) × List SearchItem :=
  if it.name = "" then acc
  else if hasKey collected it.name then
    match lookupD collected it.name with
    | some v => (dictInsert acc.1 it.name v, acc.2)
    | none => acc
  else (acc.1, acc.2 ++ [it])

/-- Phase 1 of `context_collector_node`: the cached dependencies and the
`items_to_search` list. -/
def phase1 (collected : List (String × Evidence))
    (searchItems : List SearchItem) :
    List (String × Evidence) × List SearchItem :=
  searchItems.foldl (phase1Step collected) ([], [])

/-- `batch_patterns` (lines 451-466): all patterns of all items, each paired
with the constant file pattern. -/
def batchPatterns (env : CollectorEnv) (items : List SearchItem) :
    List (String × String) :=
  (items.map (fun it =>
    (env.buildPatterns it.name it.type).map (fun p => (p, filePatternStr)))).flatten

/-- Merge one pattern's per-file results into `all_results`
(lines 485-489): extend an existing file entry, else add it. -/
def mergeFileResults (acc results : List (String × List Searcher.SMatch)) :
    List (String × List Searcher.SMatch) :=
  results.foldl
    (fun a fr =>
      match lookupD a fr.1 with
      | some ms => dictInsert a fr.1 (ms ++ fr.2)
      | none => dictInsert a fr.1 fr.2) acc

/-- `all_results` for one item (lines 477-489): the union of the batch
results of all its patterns. -/
def allResults (env : CollectorEnv)
    (lookupRes : String → Option (List (String × List Searcher.SMatch)))
    (it : SearchItem) : List (String × List Searcher.SMatch) :=
  (env.buildPatterns it.name it.type).foldl
    (fun acc p =>
      match lookupRes (patternKey p) with
      | none => acc
      | some results => mergeFileResults acc results) []

/-- Per-file dedup by line number (lines 494-500); a zero line number is
falsy in Python and dropped. -/
def dedupByLine (ms : List Searcher.SMatch) : List Searcher.SMatch :=
  (ms.foldl
    (fun (acc : List Searcher.SMatch × List Nat) m =>
      if m.line_number ≠ 0 ∧ m.line_number ∉ acc.2
      then (acc.1 ++ [m], acc.2 ++ [m.line_number])
      else acc) ([], [])).1

/-- `limited_results` (lines 491-502): first `max_files_per_item` files,
deduped matches capped at `max_matches_per_file`. -/
def limitedResults (cfg : CollectorCfg)
    (ar : List (String × List Searcher.SMatch)) :
    List (String × List Searcher.SMatch) :=
  (ar.take cfg.maxFilesPerItem).map
    (fun fr => (fr.1, (dedupByLine fr.2).take cfg.maxMatchesPerFile))

/-- `_simplify_matches` (lines 191-199): per file, at most two
`"L{n}: {line[:50]}"` samples. -/
def simplifyMatches (lr : List (String × List Searcher.SMatch)) :
    List (String × List String) :=
  lr.map (fun fr => (fr.1, (fr.2.take 2).map
    (fun m => "L" ++ toString m.line_number ++ ": "
      ++ String.mk (m.line.data.take 50))))

/-- Processing of one searched item (lines 472-523): gather, limit, count,
extract code context through the AST cache, and store the evidence entry
under the item's name. -/
def searchItemStep (env : CollectorEnv) (cfg : CollectorCfg)
    (lookupRes : String → Option (List (String × List Searcher.SMatch)))
    (acc : List (String × Evidence) × List (String × List AstNode))
    (it : SearchItem) :
    List (String × Evidence) × List (String × List AstNode) :=
  let ar := allResults env lookupRes it
  let lim := limitedResults cfg ar
  let uc := (lim.map (fun fr => fr.2.length)).sum
  let sc := env.extractContext lim acc.2
  (dictInsert acc.1 it.name
    { type := it.type
      reason := it.reason
      used_in_files := lim.map Prod.fst
      usage_count := uc
      usage_details := simplifyMatches lim
      code_snippets := sc.1
      search_status :=
        if uc = 0 then "未找到使用"
        else "找到" ++ toString uc ++ "处使用" },
   sc.2)

/-- `_ripgrep_ast_search` (lines 424-525): one batch search, then one
evidence entry per item. -/
def ripgrepAstSearch (env : CollectorEnv) (cfg : CollectorCfg)
    (items : List SearchItem) (deps0 : List (String × Evidence))
    (cache0 : List (String × List AstNode)) :
    List (String × Evidence) × List (String × List AstNode) :=
  let lookupRes := env.batchSearch (batchPatterns env items)
  items.foldl (searchItemStep env cfg lookupRes) (deps0, cache0)

/-- Python `{**a, **b}`: copy `a`, then assign every entry of `b` in order. -/
def dictMerge {α : Type} (a b : List (String × α)) : List (String × α) :=
  b.foldl (fun d p => dictInsert d p.1 p.2) a

/-- The observable outputs of one `context_collector_node` round. -/
structure RoundResult where
  dependencies : List (String × Evidence)
  allContext : List (String × Evidence)
  cache : List (String × List AstNode)
deriving Repr, DecidableEq

/-- One `context_collector_node` round on a request with `search_items`
(lines 24-130): phase 1 splits cached names from `items_to_search`, phase 2
searches the rest, and the accumulated context becomes
`{**all_collected_context, **dependencies}`. -/
def collectorRound (env : CollectorEnv) (prSize : String)
    (collected : List (String × Evidence))
    (cache : List (String × List AstNode))
    (searchItems : List SearchItem) : RoundResult :=
  let cfg := sizeConfigOf prSize
  let p1 := phase1 collected searchItems
  let r :=
    if p1.2.isEmpty then (p1.1, cache)
    else ripgrepAstSearch env cfg p1.2 p1.1 cache
  { dependencies := r.1
    allContext := dictMerge collected r.1
    cache := r.2 }

/-- A session's collection rounds in sequence, also returning the list of
the names actually searched (the `items_to_search` names) in each round. -/
def collectorRun (env : CollectorEnv) (prSize : String) :
    List (String × Evidence) × List (String × List AstNode) →
    List (List SearchItem) →
    (List (String × Evidence) × List (String × List AstNode)) ×
      List (List String)
  | st, [] => (st, [])
  | st, items :: rest =>
    let r := collectorRound env prSize st.1 st.2 items
    let searched := (phase1 st.1 items).2.map SearchItem.name
    let next := collectorRun env prSize (r.allContext, r.cache) rest
    (next.1, searched :: next.2)

lemma lookupD_cons {α : Type} (p : String × α) (rest : List (String × α))
    (k : String) :
    lookupD (p :: rest) k = if p.1 = k then some p.2 else lookupD rest k := by
  by_cases h : p.1 = k
  · rw [if_pos h]
    unfold lookupD
    rw [List.find?_cons_of_pos _ (by simpa using h)]
    rfl
  · rw [if_neg h]
    unfold lookupD
    rw [List.find?_cons_of_neg _ (by simpa using h)]

lemma hasKey_cons {α : Type} (p : String × α) (rest : List (String × α))
    (k : String) : hasKey (p :: rest) k = ((p.1 == k) || hasKey rest k) := by
  simp [hasKey, List.any_cons]

lemma lookupD_dictInsert_self {α : Type} (d : List (String × α)) (k : String)
    (v : α) : lookupD (dictInsert d k v) k = some v := by
  induction d with
  | nil => simp [dictInsert, lookupD_cons]
  | cons p rest ih =>
    by_cases h : p.1 = k
    · simp [dictInsert, h, lookupD_cons]
    · simp [dictInsert, h, lookupD_cons, ih]

lemma lookupD_dictInsert_ne {α : Type} (d : List (String × α)) (k' k : String)
    (v : α) (h : k' ≠ k) : lookupD (dictInsert d k' v) k = lookupD d k := by
  induction d with
  | nil => simp [dictInsert, lookupD, lookupD_cons, h]
  | cons p rest ih =>
    by_cases hp : p.1 = k'
    · simp [dictInsert, hp, lookupD_cons, h, hp ▸ h]
    · simp only [dictInsert, hp, if_false, lookupD_cons]
      by_cases hk : p.1 = k
      · simp [hk]
      · simp [hk, ih]

lemma hasKey_dictInsert_self {α : Type} (d : List (String × α)) (k : String)
    (v : α) : hasKey (dictInsert d k v) k = true := by
  induction d with
  | nil => simp [dictInsert, hasKey_cons]
  | cons p rest ih =>
    by_cases h : p.1 = k
    · simp [dictInsert, h, hasKey_cons]
    · simp [dictInsert, h, hasKey_cons, ih]

lemma hasKey_dictInsert_mono {α : Type} (d : List (String × α)) (k' k : String)
    (v : α) (h : hasKey d k = true) : hasKey (dictInsert d k' v) k = true := by
  induction d with
  | nil => simp [hasKey] at h
  | cons p rest ih =>
    rw [hasKey_cons] at h
    by_cases hp : p.1 = k'
    · rcases Bool.or_eq_true_iff.mp h with h1 | h1
      · simp [dictInsert, hp, hasKey_cons, hp ▸ (beq_iff_eq.mp h1)]
      · simp [dictInsert, hp, hasKey_cons]
        exact Or.inr h1
    · rcases Bool.or_eq_true_iff.mp h with h1 | h1
      · simp [dictInsert, hp, hasKey_cons, h1]
      · simp [dictInsert, hp, hasKey_cons, ih h1]

lemma hasKey_lookupD {α : Type} (d : List (String × α)) (k : String)
    (h : hasKey d k = true) : ∃ v, lookupD d k = some v := by
  induction d with
  | nil => simp [hasKey] at h
  | cons p rest ih =>
    rw [hasKey_cons] at h
    by_cases hk : p.1 = k
    · exact ⟨p.2, by simp [lookupD_cons, hk]⟩
    · rcases Bool.or_eq_true_iff.mp h with h1 | h1
      · exact absurd (beq_iff_eq.mp h1) hk
      · obtain ⟨v, hv⟩ := ih h1
        exact ⟨v, by simp [lookupD_cons, hk, hv]⟩

lemma lookupD_hasKey {α : Type} (d : List (String × α)) (k : String) (v : α)
    (h : lookupD d k = some v) : hasKey d k = true := by
  induction d with
  | nil => simp [lookupD] at h
  | cons p rest ih =>
    rw [lookupD_cons] at h
    by_cases hk : p.1 = k
    · simp [hasKey_cons, hk]
    · rw [if_neg hk] at h
      simp [hasKey_cons, hk, ih h]

lemma mem_dictInsert {α : Type} (d : List (String × α)) (k : String) (v : α)
    (p : String × α) (h : p ∈ dictInsert d k v) : p ∈ d ∨ p = (k, v) := by
  induction d with
  | nil => simpa [dictInsert] using h
  | cons q rest ih =>
    by_cases hq : q.1 = k
    · simp only [dictInsert, hq, if_true] at h
      rcases List.mem_cons.mp h with h1 | h1
      · exact Or.inr h1
      · exact Or.inl (List.mem_cons_of_mem _ h1)
    · simp only [dictInsert, hq, if_false] at h
      rcases List.mem_cons.mp h with h1 | h1
      · exact Or.inl (h1 ▸ List.mem_cons_self _ _)
      · rcases ih h1 with h2 | h2
        · exact Or.inl (List.mem_cons_of_mem _ h2)
        · exact Or.inr h2

lemma dictMerge_hasKey_left {α : Type} (b a : List (String × α)) (k : String)
    (h : hasKey a k = true) : hasKey (dictMerge a b) k = true := by
  induction b generalizing a with
  | nil => simpa [dictMerge] using h
  | cons p rest ih =>
    simp only [dictMerge, List.foldl_cons]
    exact ih _ (hasKey_dictInsert_mono a p.1 k p.2 h)

lemma dictMerge_hasKey_right {α : Type} (b a : List (String × α)) (k : String)
    (h : hasKey b k = true) : hasKey (dictMerge a b) k = true := by
  induction b generalizing a with
  | nil => simp [hasKey] at h
  | cons p rest ih =>
    rw [hasKey_cons] at h
    simp only [dictMerge, List.foldl_cons]
    rcases Bool.or_eq_true_iff.mp h with h1 | h1
    · exact dictMerge_hasKey_left rest _ k
        ((beq_iff_eq.mp h1) ▸ hasKey_dictInsert_self a p.1 p.2)
    · exact ih _ h1

lemma dictMerge_lookupD_preserved {α : Type} (b a : List (String × α))
    (k : String) (h : ∀ p ∈ b, p.1 = k → lookupD a k = some p.2) :
    lookupD (dictMerge a b) k = lookupD a k := by
  induction b generalizing a with
  | nil => rfl
  | cons p rest ih =>
    simp only [dictMerge, List.foldl_cons]
    by_cases hp : p.1 = k
    · have hv := h p (List.mem_cons_self _ _) hp
      have hins : lookupD (dictInsert a p.1 p.2) k = lookupD a k := by
        rw [hp, lookupD_dictInsert_self, hv]
      have := ih (dictInsert a p.1 p.2)
        (fun q hq hqk => by
          rw [hins]
          exact h q (List.mem_cons_of_mem _ hq) hqk)
      rw [dictMerge] at this
      rw [this, hins]
    · have hins : lookupD (dictInsert a p.1 p.2) k = lookupD a k :=
        lookupD_dictInsert_ne a p.1 k p.2 hp
      have := ih (dictInsert a p.1 p.2)
        (fun q hq hqk => by
          rw [hins]
          exact h q (List.mem_cons_of_mem _ hq) hqk)
      rw [dictMerge] at this
      rw [this, hins]

lemma phase1_fold_snd (collected : List (String × Evidence)) :
    ∀ (l : List SearchItem) (acc : List (String × Evidence) × List SearchItem),
      (l.foldl (phase1Step collected) acc).2 =
        acc.2 ++ l.filter
          (fun it => !(it.name == "") && !(hasKey collected it.name)) := by
  intro l
  induction l with
  | nil => intro acc; simp
  | cons it rest ih =>
    intro acc
    by_cases h0 : it.name = ""
    · simp only [List.foldl_cons, phase1Step, h0, if_true, List.filter_cons]
      simp [h0, ih]
    · by_cases h1 : hasKey collected it.name
      · obtain ⟨v, hv⟩ := hasKey_lookupD collected it.name h1
        simp only [List.foldl_cons, phase1Step, h0, if_false, h1, if_true, hv,
          List.filter_cons]
        simp [h0, h1, ih]
      · simp only [List.foldl_cons, phase1Step, h0, if_false, h1,
          Bool.false_eq_true, List.filter_cons]
        rw [ih]
        simp [h0, h1]

lemma phase1_snd_eq (collected : List (String × Evidence))
    (l : List SearchItem) :
    (phase1 collected l).2 = l.filter
      (fun it => !(it.name == "") && !(hasKey collected it.name)) := by
  simpa using phase1_fold_snd collected l ([], [])

lemma mem_phase1_snd (collected : List (String × Evidence))
    (l : List SearchItem) (it : SearchItem)
    (h : it ∈ (phase1 collected l).2) :
    it ∈ l ∧ it.name ≠ "" ∧ hasKey collected it.name = false := by
  rw [phase1_snd_eq] at h
  have := List.mem_filter.mp h
  refine ⟨this.1, ?_, ?_⟩
  · intro hc
    simp [hc] at this
  · rcases Bool.and_eq_true_iff.mp this.2 with ⟨_, h2⟩
    simpa using h2

lemma cached_not_searched (collected : List (String × Evidence))
    (l : List SearchItem) (n : String) (h : hasKey collected n = true) :
    n ∉ ((phase1 collected l).2.map SearchItem.name) := by
  intro hmem
  obtain ⟨it, hit, hname⟩ := List.mem_map.mp hmem
  have := (mem_phase1_snd collected l it hit).2.2
  rw [hname] at this
  rw [h] at this
  exact Bool.true_eq_false.mp this

lemma phase1_fold_fst_lookup (collected : List (String × Evidence))
    (n : String) (hck : hasKey collected n = true) (hne : n ≠ "") :
    ∀ (l : List SearchItem) (acc : List (String × Evidence) × List SearchItem),
      ((∃ it ∈ l, it.name = n) ∨ lookupD acc.1 n = lookupD collected n) →
      lookupD (l.foldl (phase1Step collected) acc).1 n = lookupD collected n := by
  intro l
  induction l with
  | nil =>
    intro acc h
    rcases h with ⟨it, hit, _⟩ | h
    · exact absurd hit (List.not_mem_nil it)
    · simpa using h
  | cons it rest ih =>
    intro acc h
    obtain ⟨v, hv⟩ := hasKey_lookupD collected n hck
    by_cases hn : it.name = n
    · have h0 : ¬ it.name = "" := by rw [hn]; exact hne
      have h1 : hasKey collected it.name = true := by rw [hn]; exact hck
      have h2 : lookupD collected it.name = some v := by rw [hn]; exact hv
      simp only [List.foldl_cons, phase1Step, h0, if_false, h1, if_true, h2]
      refine ih _ (Or.inr ?_)
      rw [hn, lookupD_dictInsert_self, hv]
    · have hpres :
          lookupD ((phase1Step collected) acc it).1 n = lookupD acc.1 n := by
        by_cases h0 : it.name = ""
        · simp [phase1Step, h0]
        · by_cases h1 : hasKey collected it.name
          · obtain ⟨w, hw⟩ := hasKey_lookupD collected it.name h1
            simp only [phase1Step, h0, if_false, h1, if_true, hw]
            exact lookupD_dictInsert_ne acc.1 it.name n w hn
          · simp [phase1Step, h0, h1]
      rcases h with ⟨it', hit', hn'⟩ | h
      · rcases List.mem_cons.mp hit' with h2 | h2
        · exact absurd (h2 ▸ hn') hn
        · exact ih _ (Or.inl ⟨it', h2, hn'⟩)
      · refine ih _ (Or.inr ?_)
        rw [hpres, h]

lemma searchFold_lookup_preserved (env : CollectorEnv) (cfg : CollectorCfg)
    (lookupRes : String → Option (List (String × List Searcher.SMatch)))
    (n : String) :
    ∀ (items : List SearchItem)
      (acc : List (String × Evidence) × List (String × List AstNode)),
      (∀ it ∈ items, it.name ≠ n) →
      lookupD (items.foldl (searchItemStep env cfg lookupRes) acc).1 n
        = lookupD acc.1 n := by
  intro items
  induction items with
  | nil => intro acc _; rfl
  | cons it rest ih =>
    intro acc h
    rw [List.foldl_cons]
    rw [ih _ (fun it' hit' => h it' (List.mem_cons_of_mem _ hit'))]
    exact lookupD_dictInsert_ne _ it.name n _ (h it (List.mem_cons_self _ _))

lemma searchFold_hasKey_mono (env : CollectorEnv) (cfg : CollectorCfg)
    (lookupRes : String → Option (List (String × List Searcher.SMatch)))
    (n : String) :
    ∀ (items : List SearchItem)
      (acc : List (String × Evidence) × List (String × List AstNode)),
      hasKey acc.1 n = true →
      hasKey (items.foldl (searchItemStep env cfg lookupRes) acc).1 n = true := by
  intro items
  induction items with
  | nil => intro acc h; exact h
  | cons it rest ih =>
    intro acc h
    rw [List.foldl_cons]
    exact ih _ (hasKey_dictInsert_mono _ it.name n _ h)

lemma searchFold_hasKey (env : CollectorEnv) (cfg : CollectorCfg)
    (lookupRes : String → Option (List (String × List Searcher.SMatch)))
    (n : String) :
    ∀ (items : List SearchItem)
      (acc : List (String × Evidence) × List (String × List AstNode)),
      (∃ it ∈ items, it.name = n) →
      hasKey (items.foldl (searchItemStep env cfg lookupRes) acc).1 n = true := by
  intro items
  induction items with
  | nil =>
    intro acc h
    obtain ⟨it, hit, _⟩ := h
    exact absurd hit (List.not_mem_nil it)
  | cons it rest ih =>
    intro acc h
    rw [List.foldl_cons]
    obtain ⟨it', hit', hn'⟩ := h
    rcases List.mem_cons.mp hit' with h2 | h2
    · refine searchFold_hasKey_mono env cfg lookupRes n rest _ ?_
      have : it.name = n := by rw [← h2]; exact hn'
      exact this ▸ hasKey_dictInsert_self _ it.name _
    · exact ih _ ⟨it', h2, hn'⟩

lemma phase1_fold_agree (collected : List (String × Evidence)) :
    ∀ (l : List SearchItem) (acc : List (String × Evidence) × List SearchItem),
      (∀ p ∈ acc.1, hasKey collected p.1 = true →
        lookupD collected p.1 = some p.2) →
      ∀ p ∈ (l.foldl (phase1Step collected) acc).1,
        hasKey collected p.1 = true → lookupD collected p.1 = some p.2 := by
  intro l
  induction l with
  | nil => intro acc hacc; exact hacc
  | cons it rest ih =>
    intro acc hacc
    rw [List.foldl_cons]
    refine ih _ ?_
    intro p hp hck
    by_cases h0 : it.name = ""
    · simp only [phase1Step, h0, if_true] at hp
      exact hacc p hp hck
    · by_cases h1 : hasKey collected it.name
      · obtain ⟨v, hv⟩ := hasKey_lookupD collected it.name h1
        simp only [phase1Step, h0, if_false, h1, if_true, hv] at hp
        rcases mem_dictInsert _ _ _ _ hp with h2 | h2
        · exact hacc p h2 hck
        · rw [h2]
          simpa [h2] using hv
      · simp only [phase1Step, h0, if_false, h1, Bool.false_eq_true,
          if_false] at hp
        exact hacc p hp hck

lemma searchFold_agree (collected : List (String × Evidence))
    (env : CollectorEnv) (cfg : CollectorCfg)
    (lookupRes : String → Option (List (String × List Searcher.SMatch))) :
    ∀ (items : List SearchItem)
      (acc : List (String × Evidence) × List (String × List AstNode)),
      (∀ it ∈ items, hasKey collected it.name = false) →
      (∀ p ∈ acc.1, hasKey collected p.1 = true →
        lookupD collected p.1 = some p.2) →
      ∀ p ∈ (items.foldl (searchItemStep env cfg lookupRes) acc).1,
        hasKey collected p.1 = true → lookupD collected p.1 = some p.2 := by
  intro items
  induction items with
  | nil => intro acc _ hacc; exact hacc
  | cons it rest ih =>
    intro acc hfresh hacc
    rw [List.foldl_cons]
    refine ih _ (fun it' hit' => hfresh it' (List.mem_cons_of_mem _ hit')) ?_
    intro p hp hck
    rcases mem_dictInsert _ _ _ _ hp with h2 | h2
    · exact hacc p h2 hck
    · have hn : hasKey collected it.name = false :=
        hfresh it (List.mem_cons_self _ _)
      rw [h2] at hck
      simp only at hck
      rw [hn] at hck
      exact absurd hck (by simp)

lemma deps_agree (env : CollectorEnv) (prSize : String)
    (collected : List (String × Evidence))
    (cache : List (String × List AstNode)) (searchItems : List SearchItem) :
    ∀ p ∈ (collectorRound env prSize collected cache searchItems).dependencies,
      hasKey collected p.1 = true → lookupD collected p.1 = some p.2 := by
  intro p hp hck
  unfold collectorRound at hp
  by_cases hemp : (phase1 collected searchItems).2.isEmpty
  · simp only [hemp, if_true] at hp
    exact phase1_fold_agree collected searchItems ([], []) (by simp) p hp hck
  · simp only [hemp, Bool.false_eq_true, if_false] at hp
    unfold ripgrepAstSearch at hp
    refine searchFold_agree collected env _ _ _ _
      (fun it hit => (mem_phase1_snd collected searchItems it hit).2.2)
      (phase1_fold_agree collected searchItems ([], []) (by simp)) p hp hck

lemma searched_has_context (env : CollectorEnv) (prSize : String)
    (collected : List (String × Evidence))
    (cache : List (String × List AstNode)) (searchItems : List SearchItem)
    (n : String)
    (h : n ∈ ((phase1 collected searchItems).2.map SearchItem.name)) :
    hasKey (collectorRound env prSize collected cache searchItems).allContext n
      = true := by
  obtain ⟨it, hit, hname⟩ := List.mem_map.mp h
  have hemp : (phase1 collected searchItems).2.isEmpty = false := by
    cases hp2 : (phase1 collected searchItems).2 with
    | nil => rw [hp2] at hit; exact absurd hit (List.not_mem_nil it)
    | cons a l => simp [List.isEmpty]
  unfold collectorRound
  simp only [hemp, Bool.false_eq_true, if_false]
  refine dictMerge_hasKey_right _ _ _ ?_
  unfold ripgrepAstSearch
  exact searchFold_hasKey env _ _ n _ _ ⟨it, hit, hname⟩

lemma round_context_hasKey_mono (env : CollectorEnv) (prSize : String)
    (collected : List (String × Evidence))
    (cache : List (String × List AstNode)) (searchItems : List SearchItem)
    (n : String) (h : hasKey collected n = true) :
    hasKey (collectorRound env prSize collected cache searchItems).allContext n
      = true := by
  unfold collectorRound
  exact dictMerge_hasKey_left _ _ _ h

lemma run_not_searched (env : CollectorEnv) (prSize : String) (n : String) :
    ∀ (rounds : List (List SearchItem))
      (st : List (String × Evidence) × List (String × List AstNode)),
      hasKey st.1 n = true →
      ∀ s ∈ (collectorRun env prSize st rounds).2, n ∉ s := by
  intro rounds
  induction rounds with
  | nil =>
    intro st _ s hs
    simp only [collectorRun] at hs
    exact absurd hs (List.not_mem_nil s)
  | cons items rest ih =>
    intro st hst s hs
    simp only [collectorRun] at hs
    rcases List.mem_cons.mp hs with h1 | h1
    · rw [h1]
      exact cached_not_searched st.1 items n hst
    · exact ih _ (round_context_hasKey_mono env prSize st.1 st.2 items n hst) s h1

lemma run_pairwise (env : CollectorEnv) (prSize : String) :
    ∀ (rounds : List (List SearchItem))
      (st : List (String × Evidence) × List (String × List AstNode)),
      List.Pairwise (fun s t => ∀ n ∈ s, n ∉ t)
        (collectorRun env prSize st rounds).2 := by
  intro rounds
  induction rounds with
  | nil => intro st; simp [collectorRun]
  | cons items rest ih =>
    intro st
    simp only [collectorRun]
    refine List.pairwise_cons.mpr ⟨?_, ih _⟩
    intro t ht n hn
    have hctx := searched_has_context env prSize st.1 st.2 items n hn
    exact run_not_searched env prSize n rest _ hctx t ht

/-- A degenerate environment for concrete runs: one literal pattern per
name, a batch search that finds nothing, and a context extractor that reads
no files. -/
def envW : CollectorEnv :=
  { buildPatterns := fun n _ => [n]
    batchSearch := fun _ _ => none
    extractContext := fun _ c => ([], c) }

def evW : Evidence :=
  { type := "function", reason := "r", used_in_files := [], usage_count := 0,
    usage_details := [], code_snippets := [], search_status := "未找到使用" }

def collectedW : List (String × Evidence) := [("foo", evW)]

def itemW : SearchItem := { name := "foo", type := "function", reason := "r" }

def itemX : SearchItem := { name := "bar", type := "class", reason := "s" }

/-- The evidence entry written for an item none of whose patterns matched
anything. -/
def zeroEvidence (env : CollectorEnv) (it : SearchItem)
    (cache : List (String × List AstNode)) : Evidence :=
  { type := it.type
    reason := it.reason
    used_in_files := []
    usage_count := 0
    usage_details := []
    code_snippets := (env.extractContext [] cache).1
    search_status := "未找到使用" }

lemma searchItemStep_empty (env : CollectorEnv) (cfg : CollectorCfg)
    (lookupRes : String → Option (List (String × List Searcher.SMatch)))
    (acc : List (String × Evidence) × List (String × List AstNode))
    (it : SearchItem) (h : allResults env lookupRes it = []) :
    (searchItemStep env cfg lookupRes acc it).1 =
      dictInsert acc.1 it.name (zeroEvidence env it acc.2) := by
  simp [searchItemStep, h, limitedResults, simplifyMatches, zeroEvidence]

lemma searchItemStep_lookup_ne (env : CollectorEnv) (cfg : CollectorCfg)
    (lookupRes : String → Option (List (String × List Searcher.SMatch)))
    (acc : List (String × Evidence) × List (String × List AstNode))
    (it : SearchItem) (n : String) (hne : it.name ≠ n) :
    lookupD (searchItemStep env cfg lookupRes acc it).1 n = lookupD acc.1 n := by
  simp only [searchItemStep]
  exact lookupD_dictInsert_ne _ it.name n _ hne

lemma searchFold_zero (env : CollectorEnv) (cfg : CollectorCfg)
    (lookupRes : String → Option (List (String × List Searcher.SMatch)))
    (n : String) :
    ∀ (items : List SearchItem)
      (acc : List (String × Evidence) × List (String × List AstNode)),
      (∀ it ∈ items, it.name = n → allResults env lookupRes it = []) →
      ((∃ it ∈ items, it.name = n) ∨
        ∃ ev : Evidence, lookupD acc.1 n = some ev ∧ ev.usage_count = 0
          ∧ ev.used_in_files = [] ∧ ev.search_status = "未找到使用") →
      ∃ ev : Evidence,
        lookupD (items.foldl (searchItemStep env cfg lookupRes) acc).1 n
          = some ev
        ∧ ev.usage_count = 0 ∧ ev.used_in_files = []
        ∧ ev.search_status = "未找到使用" := by
  intro items
  induction items with
  | nil =>
    intro acc _ h
    rcases h with ⟨it, hit, _⟩ | h
    · exact absurd hit (List.not_mem_nil it)
    · exact h
  | cons it rest ih =>
    intro acc hz h
    rw [List.foldl_cons]
    by_cases hn : it.name = n
    · refine ih _ (fun it' h1 h2 => hz it' (List.mem_cons_of_mem _ h1) h2)
        (Or.inr ?_)
      have hempty := hz it (List.mem_cons_self _ _) hn
      rw [searchItemStep_empty env cfg lookupRes acc it hempty]
      refine ⟨zeroEvidence env it acc.2, ?_, rfl, rfl, rfl⟩
      rw [← hn]
      exact lookupD_dictInsert_self _ it.name _
    · refine ih _ (fun it' h1 h2 => hz it' (List.mem_cons_of_mem _ h1) h2) ?_
      rcases h with ⟨it', hit', hn'⟩ | ⟨ev, hev, h1, h2, h3⟩
      · rcases List.mem_cons.mp hit' with he | he
        · exact absurd (he ▸ hn') hn
        · exact Or.inl ⟨it', he, hn'⟩
      · refine Or.inr ⟨ev, ?_, h1, h2, h3⟩
        rw [searchItemStep_lookup_ne env cfg lookupRes acc it n hn]
        exact hev

lemma round_allContext_eq (env : CollectorEnv) (prSize : String)
    (collected : List (String × Evidence))
    (cache : List (String × List AstNode)) (searchItems : List SearchItem) :
    (collectorRound env prSize collected cache searchItems).allContext =
      dictMerge collected
        (collectorRound env prSize collected cache searchItems).dependencies :=
  rfl

/-- C3: once a symbol name is a key of the accumulated collected context, a
collection round does not search it again (it is filtered out of
`items_to_search`), the round's `dependencies` entry for it is the stored
`Evidence` unchanged, the accumulated context keeps every existing key with
its value intact, and across any sequence of rounds of one session each name
appears in the searched-name list of at most one round. -/
theorem c3_evidence_idempotent (env : CollectorEnv) (prSize : String)
    (collected : List (String × Evidence))
    (cache : List (String × List AstNode)) (searchItems : List SearchItem)
    (name : String) (hne : name ≠ "") :
    (hasKey collected name = true →
      name ∉ ((phase1 collected searchItems).2.map SearchItem.name))
    ∧ (hasKey collected name = true → (∃ it ∈ searchItems, it.name = name) →
        lookupD
          (collectorRound env prSize collected cache searchItems).dependencies
          name = lookupD collected name)
    ∧ (∀ k, hasKey collected k = true →
        hasKey (collectorRound env prSize collected cache searchItems).allContext
          k = true
        ∧ lookupD
            (collectorRound env prSize collected cache searchItems).allContext k
          = lookupD collected k)
    ∧ (∀ rounds : List (List SearchItem),
        List.Pairwise (fun s t => ∀ n ∈ s, n ∉ t)
          (collectorRun env prSize (collected, cache) rounds).2) := by
  refine ⟨fun hck => cached_not_searched collected searchItems name hck,
    fun hck hreq => ?_, fun k hck => ⟨?_, ?_⟩,
    fun rounds => run_pairwise env prSize rounds (collected, cache)⟩
  · unfold collectorRound
    by_cases hemp : (phase1 collected searchItems).2.isEmpty
    · simp only [hemp, if_true]
      exact phase1_fold_fst_lookup collected name hck hne searchItems ([], [])
        (Or.inl hreq)
    · simp only [hemp, Bool.false_eq_true, if_false]
      unfold ripgrepAstSearch
      rw [searchFold_lookup_preserved env _ _ name _ _
        (fun it hit hcontra => by
          have := (mem_phase1_snd collected searchItems it hit).2.2
          rw [hcontra, hck] at this
          exact Bool.true_eq_false.mp this)]
      exact phase1_fold_fst_lookup collected name hck hne searchItems ([], [])
        (Or.inl hreq)
  · exact round_context_hasKey_mono env prSize collected cache searchItems k hck
  · rw [round_allContext_eq]
    refine dictMerge_lookupD_preserved _ _ k (fun p hp hpk => ?_)
    have := deps_agree env prSize collected cache searchItems p hp
      (by rw [hpk]; exact hck)
    rw [hpk] at this
    exact this

/-- Concrete instance of C3: with `foo` already collected, a round on a
request that names `foo` again does not search it and returns the stored
entry. -/
theorem c3_evidence_idempotent_witness :
    ("foo" : String) ≠ ""
    ∧ hasKey collectedW "foo" = true
    ∧ "foo" ∉ ((phase1 collectedW [itemW, itemX]).2.map SearchItem.name)
    ∧ lookupD (collectorRound envW "medium" collectedW [] [itemW, itemX]).dependencies
        "foo" = lookupD collectedW "foo" := by
  have h := c3_evidence_idempotent envW "medium" collectedW [] [itemW, itemX]
    "foo" (by decide)
  exact ⟨by decide, by decide, h.1 (by decide),
    h.2.1 (by decide) ⟨itemW, List.mem_cons_self _ _, rfl⟩⟩

/-- C10: a searched item whose patterns match nothing still gets an
`Evidence` entry in the round's dependencies — with `usage_count` 0, empty
`used_in_files` and the not-found status — the entry reaches the accumulated
context, and the name is filtered out of `items_to_search` in every later
round. -/
theorem c10_zero_usage_evidence_stored (env : CollectorEnv) (prSize : String)
    (collected : List (String × Evidence))
    (cache : List (String × List AstNode)) (searchItems : List SearchItem)
    (it : SearchItem) (hit : it ∈ (phase1 collected searchItems).2)
    (hz : ∀ it' ∈ (phase1 collected searchItems).2, it'.name = it.name →
      allResults env
        (env.batchSearch (batchPatterns env (phase1 collected searchItems).2))
        it' = []) :
    (∃ ev : Evidence,
        lookupD
          (collectorRound env prSize collected cache searchItems).dependencies
          it.name = some ev
        ∧ ev.usage_count = 0 ∧ ev.used_in_files = []
        ∧ ev.search_status = "未找到使用")
    ∧ hasKey
        (collectorRound env prSize collected cache searchItems).allContext
        it.name = true
    ∧ ∀ later : List SearchItem,
        it.name ∉
          ((phase1
            (collectorRound env prSize collected cache searchItems).allContext
            later).2.map SearchItem.name) := by
  have hemp : (phase1 collected searchItems).2.isEmpty = false := by
    cases hp2 : (phase1 collected searchItems).2 with
    | nil => rw [hp2] at hit; exact absurd hit (List.not_mem_nil it)
    | cons a l => simp [List.isEmpty]
  have hdep : ∃ ev : Evidence,
      lookupD
        (collectorRound env prSize collected cache searchItems).dependencies
        it.name = some ev
      ∧ ev.usage_count = 0 ∧ ev.used_in_files = []
      ∧ ev.search_status = "未找到使用" := by
    unfold collectorRound
    simp only [hemp, Bool.false_eq_true, if_false]
    unfold ripgrepAstSearch
    exact searchFold_zero env _ _ it.name _ _ hz (Or.inl ⟨it, hit, rfl⟩)
  have hctx : hasKey
      (collectorRound env prSize collected cache searchItems).allContext
      it.name = true := by
    obtain ⟨ev, hev, _⟩ := hdep
    rw [round_allContext_eq]
    exact dictMerge_hasKey_right _ _ _ (lookupD_hasKey _ it.name ev hev)
  exact ⟨hdep, hctx, fun later => cached_not_searched _ later it.name hctx⟩

/-- Concrete instance of C10: searching `foo` with an oracle that returns no
matches stores a zero-usage entry and never searches `foo` again. -/
theorem c10_zero_usage_evidence_stored_witness :
    itemW ∈ (phase1 ([] : List (String × Evidence)) [itemW]).2
    ∧ (∃ ev : Evidence,
        lookupD (collectorRound envW "small" [] [] [itemW]).dependencies
          itemW.name = some ev
        ∧ ev.usage_count = 0 ∧ ev.used_in_files = []
        ∧ ev.search_status = "未找到使用")
    ∧ itemW.name ∉
        ((phase1 (collectorRound envW "small" [] [] [itemW]).allContext
          [itemW]).2.map SearchItem.name) := by
  have h := c10_zero_usage_evidence_stored envW "small" [] [] [itemW] itemW
    (by decide) (by decide)
  exact ⟨by decide, h.1, h.2.2 [itemW]⟩

end Collector

end PRM
